import Mathlib

/-!
Shallow embedding of the voicecode hotkey/recording core
(`src/recorder.py`, `src/main.py`) together with proofs checking the
natural-language specification against it.

Conventions of the embedding:
* Python floats used for timestamps are modelled as `Int` instants;
  only comparisons and subtraction are performed on them in the source.
* Python exceptions are modelled with `Except`; a method that mutates
  state before raising returns the mutated state next to the error.
* Case mapping (`str.lower` / `str.upper`) is modelled on the ASCII
  range, matching `Char.toLower` / `Char.toUpper`.
* The action sequence performed by the processing pipeline is recorded
  as an explicit trace of `Act` events.
-/

namespace VoiceCode

/-! ## Character and list helpers (Python `str` operations) -/

/-- Whitespace characters stripped by Python `str.strip()` (ASCII range). -/
def isPySpace (c : Char) : Bool :=
  c = ' ' || c = '\t' || c = '\n' || c = '\x0d' || c = '\x0b' || c = '\x0c'

/-- `str.strip()`: drop leading and trailing whitespace. -/
def pyStrip (l : List Char) : List Char :=
  ((l.dropWhile isPySpace).reverse.dropWhile isPySpace).reverse

/-- `str.split("+")`: split on the plus character, keeping empty pieces. -/
def splitPlus : List Char → List (List Char)
  | [] => [[]]
  | c :: rest =>
    match splitPlus rest with
    | [] => [[]]
    | t :: ts => if c = '+' then [] :: t :: ts else (c :: t) :: ts

/-- `"+".join(parts)`. -/
def joinPlus : List (List Char) → List Char
  | [] => []
  | [x] => x
  | x :: xs => x ++ '+' :: joinPlus xs

/-- Decimal digit character for a value below 10. -/
def digitChar (d : Nat) : Char := Char.ofNat (48 + d)

/-- Decimal rendering of the numbers that can appear in a function-key
name (two digits suffice for f1..f20). -/
def natName (n : Nat) : List Char :=
  if n < 10 then [digitChar n] else [digitChar (n / 10), digitChar (n % 10)]

/-- Numeric value of a digit string, as computed by Python `int`. -/
def digitsVal (l : List Char) : Nat :=
  l.foldl (fun acc c => 10 * acc + (c.toNat - 48)) 0

/-! ## Key model (`pynput` keys as used by the program)

`keyboard.Key.ctrl/shift/alt/cmd`, `keyboard.Key.f1..f20` and
`keyboard.KeyCode.from_char(c)` are the only key values the program
constructs; other named keys can arrive from the listener but are
opaque, so the named constructors below cover everything the claims
touch. -/

inductive PKey where
  | ctrl | shift | alt | cmd
  | fkey (n : Nat)
  | char (c : Char)
  deriving DecidableEq, Repr

/-- Name of the `keyboard.Key.fN` attribute, e.g. `f15`. -/
def fnName (n : Nat) : List Char := 'f' :: natName n

/-- `getattr(keyboard.Key, part, None)` for function-key names: only the
canonical names `f1` .. `f20` are attributes of `keyboard.Key`. -/
def fnLookup (t : List Char) : Option PKey :=
  (((List.range 20).map (· + 1)).find? (fun n => t = fnName n)).map PKey.fkey

/-! ## Recorder (`src/recorder.py`, class `AudioRecorder`) -/

/-- One PCM chunk delivered by the capture callback (`indata.copy()`). -/
abbrev Chunk := List Int

/-- The persisted audio artifact: concatenation of the frames
(`np.concatenate(self._frames)` written to a fresh WAV file). -/
abbrev Artifact := List Int

/-- Mutable fields of `AudioRecorder`. -/
structure RecorderState where
  frames : List Chunk
  is_recording : Bool
  stream_open : Bool
  start_time : Option Int
  max_duration : Int
  timeout_reached : Bool
  deriving DecidableEq, Repr

/-- Freshly constructed `AudioRecorder` with the given `max_duration`. -/
def RecorderState.init (maxDur : Int) : RecorderState :=
  { frames := [], is_recording := false, stream_open := false
    start_time := none, max_duration := maxDur, timeout_reached := false }

/-- Errors raised by the recorder. -/
inductive RecError where
  | alreadyRecording
  | notRecording
  | noAudioCaptured
  | micPermission
  | portAudio (msg : String)
  deriving DecidableEq, Repr

/-- Outcome of `sd.InputStream(...)` + `stream.start()`: either the
stream opens, or a `PortAudioError` with the given message is raised. -/
inductive OpenOutcome where
  | opened
  | openFailed (msg : String)
  deriving DecidableEq, Repr

/-- Prefix test on character lists. -/
def listPrefixOf : List Char → List Char → Bool
  | [], _ => true
  | _ :: _, [] => false
  | a :: as, b :: bs => a = b && listPrefixOf as bs

/-- Substring test, auxiliary recursion over the haystack. -/
def containsSubAux (needle : List Char) : List Char → Bool
  | [] => needle.isEmpty
  | c :: rest => listPrefixOf needle (c :: rest) || containsSubAux needle rest

/-- Substring test (`needle in haystack` on lists of characters). -/
def containsSub (hay needle : List Char) : Bool := containsSubAux needle hay

/-- The permission-detection test of `AudioRecorder.start`:
`"permission" in str(e).lower() or "denied" in str(e).lower()`. -/
def indicatesDenied (msg : String) : Bool :=
  containsSub (msg.data.map Char.toLower) "permission".data ||
  containsSub (msg.data.map Char.toLower) "denied".data

/-- `AudioRecorder.start` at instant `now` with device outcome `o`.
Returns the post-call state (Python mutates `self` even on the error
path) next to the result. -/
def recStart (s : RecorderState) (now : Int) (o : OpenOutcome) :
    RecorderState × Except RecError Unit :=
  if s.is_recording then (s, .error .alreadyRecording)
  else
    let s1 := { s with frames := [], is_recording := true,
                       start_time := some now, timeout_reached := false }
    match o with
    | .opened => ({ s1 with stream_open := true }, .ok ())
    | .openFailed msg =>
      let s2 := { s1 with is_recording := false, start_time := none }
      if indicatesDenied msg then (s2, .error .micPermission)
      else (s2, .error (.portAudio msg))

/-- The capture callback defined inside `AudioRecorder.start`, for one
delivered chunk at instant `now`. The returned `Bool` is true when the
callback raised `sd.CallbackAbort` (stream aborts, chunk dropped). -/
def recCallback (s : RecorderState) (now : Int) (chunk : Chunk) :
    RecorderState × Bool :=
  match s.start_time with
  | some t0 =>
    if s.max_duration ≤ now - t0 then
      ({ s with timeout_reached := true }, true)
    else
      ({ s with frames := s.frames ++ [chunk] }, false)
  | none => ({ s with frames := s.frames ++ [chunk] }, false)

/-- The capture stream delivering a sequence of timed chunks to the
callback; after an abort no further chunk is delivered. -/
def runCallbacks (s : RecorderState) : List (Int × Chunk) → RecorderState
  | [] => s
  | (now, c) :: rest =>
    match recCallback s now c with
    | (s1, true) => s1
    | (s1, false) => runCallbacks s1 rest

/-- `AudioRecorder.stop` (including `_save_to_file`): post-call state
next to the produced artifact or the raised error. -/
def recStop (s : RecorderState) : RecorderState × Except RecError Artifact :=
  if s.is_recording then
    let s1 := { s with stream_open := false, is_recording := false,
                       timeout_reached := false }
    if s1.frames.isEmpty then (s1, .error .noAudioCaptured)
    else (s1, .ok s1.frames.flatten)
  else (s, .error .notRecording)

/-! ## Hotkey parsing and formatting (`_parse_hotkey` / `_format_hotkey`) -/

/-- Errors raised by `_parse_hotkey` (`ValueError` with three distinct
messages). Each carries the string interpolated into the message. -/
inductive ParseError where
  | emptyCombo (src : String)
  | invalidFunctionKey (tok : String)
  | unknownKey (tok : String)
  deriving DecidableEq, Repr

/-- Final two rules of the token loop: a single character is accepted
as `keyboard.KeyCode.from_char(part)`, anything else raises. -/
def singleOrUnknown (t : List Char) : Except ParseError PKey :=
  match t with
  | [c] => .ok (.char c)
  | _ => .error (.unknownKey (String.mk t))

/-- `part.startswith("f") and part[1:].isdigit()`: the guard of the
function-key rule. -/
def fnShaped (t : List Char) : Bool :=
  (t.head? == some 'f') && !(t.drop 1).isEmpty &&
    (t.drop 1).all (fun c => c.isDigit)

/-- One iteration of the token loop of `_parse_hotkey` for a non-empty
token (already lower-cased and stripped). -/
def classifyToken (t : List Char) : Except ParseError PKey :=
  if t = ['c', 't', 'r', 'l'] then .ok .ctrl
  else if t = ['s', 'h', 'i', 'f', 't'] then .ok .shift
  else if t = ['a', 'l', 't'] then .ok .alt
  else if t = ['c', 'm', 'd'] then .ok .cmd
  else if fnShaped t then
    let n := digitsVal (t.drop 1)
    if 1 ≤ n ∧ n ≤ 20 then
      match fnLookup t with
      | some k => .ok k
      | none => .error (.invalidFunctionKey (String.mk t))
    else .error (.invalidFunctionKey (String.mk t))
  else singleOrUnknown t

/-- `hotkey_str.lower().strip().split("+")` with the per-token
`part.strip()` applied, i.e. the token list the loop iterates over. -/
def tokensOf (s : String) : List (List Char) :=
  (splitPlus (pyStrip (s.data.map Char.toLower))).map pyStrip

/-- `keys.add(k)` on a Python set, modelled as ordered insertion
without duplication. -/
def insertKey (acc : List PKey) (k : PKey) : List PKey :=
  if k ∈ acc then acc else acc ++ [k]

/-- The token loop of `_parse_hotkey` followed by the final emptiness
check (`if not keys: raise`). -/
def parseTokens (src : String) : List (List Char) → List PKey → Except ParseError (List PKey)
  | [], acc => if acc.isEmpty then .error (.emptyCombo src) else .ok acc
  | t :: ts, acc =>
    if t.isEmpty then parseTokens src ts acc
    else
      match classifyToken t with
      | .ok k => parseTokens src ts (insertKey acc k)
      | .error e => .error e

/-- `_parse_hotkey`. The resulting list is duplicate-free and its
membership is the parsed key set. -/
def hotkeyParse (s : String) : Except ParseError (List PKey) :=
  parseTokens s (tokensOf s) []

/-- Membership test for the four modifier keys. -/
def isModifier : PKey → Bool
  | .ctrl => true
  | .shift => true
  | .alt => true
  | .cmd => true
  | _ => false

/-- Python `str.upper()` on a one-character string. On the ASCII range
this is `Char.toUpper`; the sharp s expands to the two letters `SS` —
`str.upper()` is not length-preserving, and this expansion is the
representative of that behaviour in the model (further Unicode-table
mappings are outside it). -/
def pyUpperChar (c : Char) : List Char :=
  if c = 'ß' then ['S', 'S'] else [c.toUpper]

/-- Display name of a key as emitted by `_format_hotkey`
(`key.name.upper()` for named keys, `key.char.upper()` for characters;
the latter can be longer than one character). -/
def keyName : PKey → List Char
  | .ctrl => ['C', 't', 'r', 'l']
  | .shift => ['S', 'h', 'i', 'f', 't']
  | .alt => ['A', 'l', 't']
  | .cmd => ['C', 'm', 'd']
  | .fkey n => 'F' :: natName n
  | .char c => pyUpperChar c

/-- The keys in the order `_format_hotkey` emits them: modifiers first
in the fixed order Ctrl, Shift, Alt, Cmd, then the remaining keys in
the iteration order of the set (modelled as list order). -/
def fmtKeys (l : List PKey) : List PKey :=
  ([PKey.ctrl, PKey.shift, PKey.alt, PKey.cmd].filter
      (fun k => decide (k ∈ l))) ++
  (l.filter (fun k => !isModifier k))

/-- The `key_names` list built by `_format_hotkey`. -/
def fmtNames (l : List PKey) : List (List Char) :=
  (fmtKeys l).map keyName

/-- Whether an `Except` result is a success. -/
def exOk {ε α : Type} : Except ε α → Bool
  | .ok _ => true
  | .error _ => false

/-- The invariant of every key produced by a successful parse: function
keys lie in the range 1..20 and characters are lower-case-normalized,
not the separator and not whitespace. -/
def GoodKey : PKey → Prop
  | .fkey n => 1 ≤ n ∧ n ≤ 20
  | .char c => c ≠ '+' ∧ isPySpace c = false ∧ c.toLower = c
  | _ => True

/-- A key whose display name survives the format/re-parse case round
trip: lower-casing the upper-cased character recovers the character.
Every ASCII character key satisfies this; the sharp s does not (its
upper case is the two-letter `SS`). -/
def KeyRoundTrips : PKey → Prop
  | .char c => (pyUpperChar c).map Char.toLower = [c]
  | _ => True

/-- `_format_hotkey` applied to a key set: the display names joined
with plus signs. -/
def formatKeys (l : List PKey) : List Char :=
  joinPlus (fmtNames l)

/-- `_format_hotkey` as a string producer. -/
def formatHotkey (l : List PKey) : String := String.mk (formatKeys l)

/-! ## Application state machine (`VoiceCodeApp` in `src/main.py`) -/

/-- Menu-bar icon states. -/
inductive Icon where
  | idle | recording | processing
  deriving DecidableEq, Repr

/-- The four effect sounds. -/
inductive Snd where
  | sndStart | sndStop | sndSuccess | sndError
  deriving DecidableEq, Repr

/-- Observable actions performed by `_stop_and_process`. -/
inductive Act where
  | setIcon (i : Icon)
  | playSnd (s : Snd)
  | overlayHide
  | recorderStop
  | transcribeCall
  | correctCall (input : String)
  | clipboardRead
  | clipboardWrite (text : String)
  | paste
  | historySave (raw corrected : String)
  | deleteFile
  deriving DecidableEq, Repr

/-- The application fields the claims touch. -/
structure AppState where
  recorder : RecorderState
  processing : Bool
  current_keys : List PKey
  hotkey : List PKey
  push_to_talk : Bool
  restore_clipboard : Bool
  icon : Icon
  deriving DecidableEq, Repr

/-- `_normalize_key`: lower-case the character of a `KeyCode`, leave
named keys unchanged. -/
def normalizeKey : PKey → PKey
  | .char c => .char c.toLower
  | k => k

/-- `_check_hotkey`: the configured combo is a subset of the held keys. -/
def checkHotkey (a : AppState) : Bool :=
  a.hotkey.all (fun k => decide (k ∈ a.current_keys))

/-- `set.discard(k)`. -/
def removeKey (acc : List PKey) (k : PKey) : List PKey :=
  acc.filter (fun x => decide (x ≠ k))

/-- Dispatch decision of a handler: which transition it invokes. -/
inductive Dispatch where
  | startRec | stopProcess
  deriving DecidableEq, Repr

/-- The decision made by `_toggle_recording`. -/
def toggleDispatch (a : AppState) : Option Dispatch :=
  if a.processing then none
  else if a.recorder.is_recording then some .stopProcess
  else some .startRec

/-- One tick of `_check_timeout` (the supervisor timer). -/
def checkTimeoutDispatch (a : AppState) : Option Dispatch :=
  if a.recorder.is_recording && a.recorder.timeout_reached && !a.processing then
    some .stopProcess
  else none

/-- `_on_press`: the returned flag is true exactly when the handler
reached the call to `_toggle_recording`. -/
def onPress (a : AppState) (k : PKey) : AppState × Bool :=
  let nk := normalizeKey k
  if nk ∈ a.current_keys then (a, false)
  else
    let a1 := { a with current_keys := insertKey a.current_keys nk }
    (a1, checkHotkey a1)

/-- `_on_release`: removes the key and, in push-to-talk mode while
recording, invokes stop-and-process when the combo is no longer held.
Note the source has no `_processing` check on this path. -/
def onRelease (a : AppState) (k : PKey) : AppState × Option Dispatch :=
  let nk := normalizeKey k
  let a1 := { a with current_keys := removeKey a.current_keys nk }
  if a1.push_to_talk && a1.recorder.is_recording && !(checkHotkey a1) then
    (a1, some .stopProcess)
  else (a1, none)

/-! ## The stop-and-process pipeline (`_stop_and_process`) -/

/-- Outcomes of the external collaborators for one pipeline run. An
`Except.error` models the call raising an exception. -/
structure Env where
  transcribe : Except String String
  correct : Except String String
  clipRead : Except String String
  clipWrite : Except String Unit
  pasteRes : Except String Unit
  history : Except String Unit
  restoreWrite : Except String Unit
  deleteRes : Except String Unit
  artifactExists : Bool

/-- How the `try` body of `_stop_and_process` exited. -/
inductive Flow where
  | normal | early | raised
  deriving DecidableEq, Repr

/-- Result of the `try` body: recorder state, the locals `audio_path`
and `original_clipboard`, the actions performed, and the exit kind. -/
structure TryRes where
  recSt : RecorderState
  audioPath : Option Artifact
  orig : Option String
  acts : List Act
  flow : Flow

/-- The `try` body of `_stop_and_process`, from `self._recorder.stop()`
down to the success prints. -/
def tryBody (a : AppState) (env : Env) : TryRes :=
  match recStop a.recorder with
  | (rec1, .error _) =>
    ⟨rec1, none, none, [.recorderStop], .raised⟩
  | (rec1, .ok artifact) =>
    match env.transcribe with
    | .error _ => ⟨rec1, some artifact, none, [.recorderStop, .transcribeCall], .raised⟩
    | .ok text =>
      if (pyStrip text.data).isEmpty then
        ⟨rec1, some artifact, none,
          [.recorderStop, .transcribeCall, .setIcon .idle, .playSnd .sndError], .early⟩
      else
        match env.correct with
        | .error _ =>
          ⟨rec1, some artifact, none,
            [.recorderStop, .transcribeCall, .correctCall text], .raised⟩
        | .ok corrected =>
          let origRead : Option String × List Act :=
            if a.restore_clipboard then
              match env.clipRead with
              | .ok o => (some o, [Act.clipboardRead])
              | .error _ => (none, [Act.clipboardRead])
            else (none, [])
          let acts0 : List Act :=
            [.recorderStop, .transcribeCall, .correctCall text] ++ origRead.2 ++
              [.clipboardWrite corrected]
          match env.clipWrite with
          | .error _ => ⟨rec1, some artifact, origRead.1, acts0, .raised⟩
          | .ok _ =>
            match env.pasteRes with
            | .error _ => ⟨rec1, some artifact, origRead.1, acts0 ++ [.paste], .raised⟩
            | .ok _ =>
              if env.artifactExists then
                match env.history with
                | .error _ =>
                  ⟨rec1, some artifact, origRead.1,
                    acts0 ++ [.paste, .historySave text corrected], .raised⟩
                | .ok _ =>
                  ⟨rec1, some artifact, origRead.1,
                    acts0 ++ [.paste, .historySave text corrected,
                              .setIcon .idle, .playSnd .sndSuccess], .normal⟩
              else
                ⟨rec1, some artifact, origRead.1,
                  acts0 ++ [.paste, .setIcon .idle, .playSnd .sndSuccess], .normal⟩

/-- Icon resulting from replaying a trace of actions. -/
def iconAfterActs (i0 : Icon) : List Act → Icon
  | [] => i0
  | Act.setIcon i :: rest => iconAfterActs i rest
  | _ :: rest => iconAfterActs i0 rest

/-- `_stop_and_process`: the full method, including the `except` handler
and the `finally` block, returning the new application state and the
trace of performed actions. -/
def stopAndProcess (a : AppState) (env : Env) : AppState × List Act :=
  let pre : List Act := [.setIcon .processing, .overlayHide, .playSnd .sndStop]
  let r := tryBody a env
  let excActs : List Act :=
    match r.flow with
    | .raised => [.setIcon .idle, .playSnd .sndError]
    | _ => []
  let finActs : List Act :=
    (match r.orig with
     | some o => [Act.clipboardWrite o]
     | none => []) ++
    (if r.audioPath.isSome && env.artifactExists then [Act.deleteFile] else [])
  let trace := pre ++ r.acts ++ excActs ++ finActs
  ({ a with recorder := r.recSt, processing := false,
            icon := iconAfterActs a.icon trace }, trace)

/-- The clipboard-write, paste and archival events of a trace, in order. -/
def isOutputAct : Act → Bool
  | .clipboardWrite _ => true
  | .paste => true
  | .historySave _ _ => true
  | _ => false

/-- Projection of a trace onto clipboard writes, pastes and archival
hand-offs. -/
def eventsOf (tr : List Act) : List Act := tr.filter isOutputAct

/-! ## Spec-side token rules (for the claim about parse failures)

These definitions follow the words of the specification, not the code;
they exist to be compared with `hotkeyParse`. -/

/-- Modelled from the spec: a token naming one of the four modifiers. -/
def modTokenB (t : List Char) : Bool :=
  t == ['c', 't', 'r', 'l'] || t == ['s', 'h', 'i', 'f', 't'] ||
  t == ['a', 'l', 't'] || t == ['c', 'm', 'd']

/-- Modelled from the spec: a token naming a function key f1 through f20. -/
def fnTokenB (t : List Char) : Bool :=
  ((List.range 20).map (· + 1)).any (fun n => t == fnName n)

/-- Modelled from the spec: a printable character (ASCII graphic or
space), the usual reading of "printable". -/
def printableChar (c : Char) : Bool :=
  32 ≤ c.toNat && c.toNat ≤ 126

/-- Modelled from the spec: the token rule exactly as the claim states
it — modifier, function key f1..f20, or a single printable character. -/
def specRuleOrig (t : List Char) : Bool :=
  modTokenB t || fnTokenB t || (t.length == 1 && t.all printableChar)

/-- The token rule with the printability requirement dropped: modifier,
function key f1..f20, or any single character. -/
def specRuleAmended (t : List Char) : Bool :=
  modTokenB t || fnTokenB t || t.length == 1

/-- Modelled from the spec: a function-key-shaped token (an `f`
followed by digits) whose number lies outside the interval from 1
to 20. -/
def fnOutOfRangeB (t : List Char) : Bool :=
  fnShaped t &&
    (decide (digitsVal (t.drop 1) < 1) || decide (20 < digitsVal (t.drop 1)))

/-- Modelled from the spec: the failure condition of the claim — some
(non-empty) token matches no rule, or a function-key number is out of
range, or every token is empty so the resulting key set is empty. -/
def specParseFails (rule : List Char → Bool) (s : String) : Bool :=
  (tokensOf s).any (fun t => !t.isEmpty && !rule t) ||
  (tokensOf s).any fnOutOfRangeB ||
  (tokensOf s).all (fun t => t.isEmpty)

/-! ## Lemmas about the recorder and the handlers -/

/-- `stop()` entered while recording always produces the same post-call
state, whether or not it then raises for lack of audio. -/
theorem recStop_fst (s : RecorderState) (h : s.is_recording = true) :
    (recStop s).1 = { s with stream_open := false, is_recording := false,
                             timeout_reached := false } := by
  simp only [recStop, h, if_true]
  split <;> rfl

/-- Membership in the set-insertion model. -/
theorem mem_insertKey (l : List PKey) (k x : PKey) :
    x ∈ insertKey l k ↔ x ∈ l ∨ x = k := by
  unfold insertKey
  split
  · rename_i hmem
    constructor
    · exact Or.inl
    · rintro (h | rfl)
      · exact h
      · exact hmem
  · simp [List.mem_append]

/-- A discarded key is no longer held. -/
theorem not_mem_removeKey (l : List PKey) (k : PKey) : k ∉ removeKey l k := by
  simp [removeKey]

/-- The state component of `_on_release` is the same on both branches:
the key is removed from the held set. -/
theorem onRelease_fst (a : AppState) (k : PKey) :
    (onRelease a k).1 =
      { a with current_keys := removeKey a.current_keys (normalizeKey k) } := by
  simp only [onRelease]
  split <;> rfl

/-- With a one-key combo, `_check_hotkey` is membership of that key. -/
theorem checkHotkey_single (a : AppState) (hk : a.hotkey = [PKey.fkey 15]) :
    checkHotkey a = decide (PKey.fkey 15 ∈ a.current_keys) := by
  simp [checkHotkey, hk]

/-! ## Claim C1 -/

/-- C1: once the capture callback has set the timeout flag and `stop()`
runs, both flags read false afterwards and a supervisor tick at that
state dispatches nothing; in general a tick dispatches stop-and-process
exactly when recording, timed out and not processing hold at once. -/
theorem claim_C1 (s : RecorderState) (a : AppState)
    (hrec : s.is_recording = true) (hto : s.timeout_reached = true)
    (ha : a.recorder = (recStop s).1) :
    (recStop s).1.timeout_reached = false ∧
    (recStop s).1.is_recording = false ∧
    checkTimeoutDispatch a = none ∧
    (∀ b : AppState, checkTimeoutDispatch b = some Dispatch.stopProcess ↔
      (b.recorder.is_recording = true ∧ b.recorder.timeout_reached = true ∧
       b.processing = false)) := by
  have h1 := recStop_fst s hrec
  refine ⟨by rw [h1], by rw [h1], ?_, ?_⟩
  · simp [checkTimeoutDispatch, ha, h1]
  · intro b
    simp only [checkTimeoutDispatch]
    split
    · rename_i hcond
      simp only [Bool.and_eq_true, Bool.not_eq_true'] at hcond
      simp [hcond.1.1, hcond.1.2, hcond.2]
    · rename_i hcond
      constructor
      · intro h
        cases h
      · rintro ⟨h1, h2, h3⟩
        exact absurd (by simp [h1, h2, h3]) hcond

/-- Witness for C1 at a concrete timed-out recording state. -/
theorem claim_C1_witness :
    (⟨[], true, false, none, 120, true⟩ : RecorderState).is_recording = true ∧
    (⟨[], true, false, none, 120, true⟩ : RecorderState).timeout_reached = true ∧
    (⟨(recStop ⟨[], true, false, none, 120, true⟩).1, false, [], [PKey.fkey 15],
        false, true, Icon.idle⟩ : AppState).recorder =
      (recStop ⟨[], true, false, none, 120, true⟩).1 ∧
    ((recStop ⟨[], true, false, none, 120, true⟩).1.timeout_reached = false ∧
     (recStop ⟨[], true, false, none, 120, true⟩).1.is_recording = false ∧
     checkTimeoutDispatch
       (⟨(recStop ⟨[], true, false, none, 120, true⟩).1, false, [], [PKey.fkey 15],
          false, true, Icon.idle⟩ : AppState) = none ∧
     (∀ b : AppState, checkTimeoutDispatch b = some Dispatch.stopProcess ↔
       (b.recorder.is_recording = true ∧ b.recorder.timeout_reached = true ∧
        b.processing = false))) :=
  ⟨rfl, rfl, rfl, claim_C1 _ _ rfl rfl rfl⟩

/-! ## Claim C4 -/

/-- C4: a chunk delivered while recording with the start instant set is
dropped (frames unchanged) with the timeout flag raised and the stream
aborted when the elapsed time reaches the maximum duration — no
further chunk being delivered after the abort — and appended in
arrival order otherwise. -/
theorem claim_C4 (s : RecorderState) (now t0 : Int) (chunk : Chunk)
    (rest : List (Int × Chunk))
    (hrec : s.is_recording = true) (hst : s.start_time = some t0) :
    (s.max_duration ≤ now - t0 →
      recCallback s now chunk = ({ s with timeout_reached := true }, true) ∧
      (recCallback s now chunk).1.frames = s.frames ∧
      runCallbacks s ((now, chunk) :: rest) = { s with timeout_reached := true }) ∧
    (¬(s.max_duration ≤ now - t0) →
      recCallback s now chunk = ({ s with frames := s.frames ++ [chunk] }, false) ∧
      runCallbacks s ((now, chunk) :: rest) =
        runCallbacks { s with frames := s.frames ++ [chunk] } rest) := by
  constructor
  · intro h
    have hc : recCallback s now chunk = ({ s with timeout_reached := true }, true) := by
      simp [recCallback, hst, h]
    exact ⟨hc, by rw [hc], by simp [runCallbacks, hc]⟩
  · intro h
    have hc : recCallback s now chunk =
        ({ s with frames := s.frames ++ [chunk] }, false) := by
      simp [recCallback, hst, h]
    exact ⟨hc, by simp [runCallbacks, hc]⟩

/-- Witness for C4: a chunk arriving at instant 10 against a start
instant 0 and a 5-second maximum triggers the timeout. -/
theorem claim_C4_witness :
    (⟨[], true, true, some 0, 5, false⟩ : RecorderState).is_recording = true ∧
    (⟨[], true, true, some 0, 5, false⟩ : RecorderState).start_time = some 0 ∧
    (((⟨[], true, true, some 0, 5, false⟩ : RecorderState).max_duration ≤ 10 - 0 →
      recCallback ⟨[], true, true, some 0, 5, false⟩ 10 [1] =
        ({ (⟨[], true, true, some 0, 5, false⟩ : RecorderState) with
            timeout_reached := true }, true) ∧
      (recCallback ⟨[], true, true, some 0, 5, false⟩ 10 [1]).1.frames =
        (⟨[], true, true, some 0, 5, false⟩ : RecorderState).frames ∧
      runCallbacks ⟨[], true, true, some 0, 5, false⟩ [(10, [1])] =
        { (⟨[], true, true, some 0, 5, false⟩ : RecorderState) with
            timeout_reached := true }) ∧
    (¬((⟨[], true, true, some 0, 5, false⟩ : RecorderState).max_duration ≤ 10 - 0) →
      recCallback ⟨[], true, true, some 0, 5, false⟩ 10 [1] =
        ({ (⟨[], true, true, some 0, 5, false⟩ : RecorderState) with
            frames := (⟨[], true, true, some 0, 5, false⟩ : RecorderState).frames ++ [[1]] },
          false) ∧
      runCallbacks ⟨[], true, true, some 0, 5, false⟩ [(10, [1])] =
        runCallbacks
          { (⟨[], true, true, some 0, 5, false⟩ : RecorderState) with
              frames := (⟨[], true, true, some 0, 5, false⟩ : RecorderState).frames ++ [[1]] }
          [])) :=
  ⟨rfl, rfl, claim_C4 _ 10 0 [1] [] rfl rfl⟩

/-! ## Claim C10 -/

/-- C10: `stop()` while recording with no captured frames raises the
no-audio error, yet fully stops the session first — stream closed,
recording and timeout flags cleared — so a second `stop()` raises
not-recording and a fresh `start()` succeeds. -/
theorem claim_C10 (s : RecorderState) (now : Int)
    (hrec : s.is_recording = true) (hemp : s.frames = []) :
    (recStop s).2 = .error .noAudioCaptured ∧
    (recStop s).1.stream_open = false ∧
    (recStop s).1.is_recording = false ∧
    (recStop s).1.timeout_reached = false ∧
    (recStop (recStop s).1).2 = .error .notRecording ∧
    (recStart (recStop s).1 now .opened).2 = .ok () ∧
    (recStart (recStop s).1 now .opened).1.is_recording = true := by
  have h1 := recStop_fst s hrec
  refine ⟨?_, by rw [h1], by rw [h1], by rw [h1], ?_, ?_, ?_⟩
  · simp [recStop, hrec, hemp]
  · rw [h1]
    simp [recStop]
  · rw [h1]
    simp [recStart]
  · rw [h1]
    simp [recStart]

/-- Witness for C10 at a concrete empty-framed recording state. -/
theorem claim_C10_witness :
    (⟨[], true, true, some 3, 120, false⟩ : RecorderState).is_recording = true ∧
    (⟨[], true, true, some 3, 120, false⟩ : RecorderState).frames = [] ∧
    ((recStop ⟨[], true, true, some 3, 120, false⟩).2 = .error .noAudioCaptured ∧
     (recStop ⟨[], true, true, some 3, 120, false⟩).1.stream_open = false ∧
     (recStop ⟨[], true, true, some 3, 120, false⟩).1.is_recording = false ∧
     (recStop ⟨[], true, true, some 3, 120, false⟩).1.timeout_reached = false ∧
     (recStop (recStop ⟨[], true, true, some 3, 120, false⟩).1).2 =
       .error .notRecording ∧
     (recStart (recStop ⟨[], true, true, some 3, 120, false⟩).1 9 .opened).2 = .ok () ∧
     (recStart (recStop ⟨[], true, true, some 3, 120, false⟩).1 9 .opened).1.is_recording
       = true) :=
  ⟨rfl, rfl, claim_C10 _ 9 rfl rfl⟩

/-! ## Claim C3 -/

/-- C3 counterexample: start a session at instant 5, stop it (leaving
`start_time` at 5), then fail the next `start()`: the recorded
`start_time` is cleared to `none`, not restored to its pre-call value
`some 5` — so the claimed rollback of `startTimestamp` is false. -/
theorem claim_C3_counterexample :
    (recStop (recStart (RecorderState.init 120) 5 .opened).1).1.is_recording = false ∧
    (recStop (recStart (RecorderState.init 120) 5 .opened).1).1.start_time = some 5 ∧
    (recStart (recStop (recStart (RecorderState.init 120) 5 .opened).1).1 7
        (.openFailed "x")).2 = .error (.portAudio "x") ∧
    ¬((recStart (recStop (recStart (RecorderState.init 120) 5 .opened).1).1 7
        (.openFailed "x")).1.start_time =
      (recStop (recStart (RecorderState.init 120) 5 .opened).1).1.start_time) :=
  ⟨rfl, rfl, rfl, by decide⟩

/-- C3 amended: on an open failure, `isRecording` is rolled back to its
pre-call value (false) but `startTimestamp` is cleared to `none`
rather than restored; the raised error is the permission error exactly
when the device message indicates denied microphone access, and the
generic device error otherwise. -/
theorem claim_C3_amended (s : RecorderState) (now : Int) (msg : String)
    (h : s.is_recording = false) :
    (recStart s now (.openFailed msg)).1.is_recording = s.is_recording ∧
    (recStart s now (.openFailed msg)).1.start_time = none ∧
    ((recStart s now (.openFailed msg)).2 = .error .micPermission ↔
      indicatesDenied msg = true) ∧
    (indicatesDenied msg = false →
      (recStart s now (.openFailed msg)).2 = .error (.portAudio msg)) := by
  by_cases hd : indicatesDenied msg <;> simp [recStart, h, hd]

/-- Witness for the amended C3 on an idle recorder and a message that
does not indicate a permission problem. -/
theorem claim_C3_amended_witness :
    (RecorderState.init 120).is_recording = false ∧
    ((recStart (RecorderState.init 120) 2 (.openFailed "device gone")).1.is_recording =
       (RecorderState.init 120).is_recording ∧
     (recStart (RecorderState.init 120) 2 (.openFailed "device gone")).1.start_time =
       none ∧
     ((recStart (RecorderState.init 120) 2 (.openFailed "device gone")).2 =
        .error .micPermission ↔ indicatesDenied "device gone" = true) ∧
     (indicatesDenied "device gone" = false →
       (recStart (RecorderState.init 120) 2 (.openFailed "device gone")).2 =
         .error (.portAudio "device gone"))) :=
  ⟨rfl, claim_C3_amended _ 2 "device gone" rfl⟩

/-! ## Claim C2 -/

/-- C2 counterexample: with the processing flag set, push-to-talk mode
on, the recorder still recording and the combo released, `_on_release`
does dispatch stop-and-process — the release path has no processing
guard, refuting the claim that no event dispatches while
ProcessingFlag is true. -/
theorem claim_C2_counterexample :
    (⟨⟨[[0]], true, true, some 0, 120, false⟩, true, [PKey.fkey 15],
      [PKey.fkey 15], true, true, Icon.processing⟩ : AppState).processing = true ∧
    (onRelease (⟨⟨[[0]], true, true, some 0, 120, false⟩, true, [PKey.fkey 15],
      [PKey.fkey 15], true, true, Icon.processing⟩ : AppState)
      (PKey.fkey 15)).2 = some Dispatch.stopProcess := by
  decide

/-- C2 amended: while ProcessingFlag is true the press toggle is
ignored and a supervisor tick does nothing, but the push-to-talk
release path is not guarded by the flag: it dispatches stop-and-process
exactly when push-to-talk is on, the recorder is recording, and the
combo is no longer held after the removal. -/
theorem claim_C2_amended (a : AppState) (k : PKey) (h : a.processing = true) :
    toggleDispatch a = none ∧
    checkTimeoutDispatch a = none ∧
    ((onRelease a k).2 = some Dispatch.stopProcess ↔
      (a.push_to_talk = true ∧ a.recorder.is_recording = true ∧
       checkHotkey
         { a with current_keys := removeKey a.current_keys (normalizeKey k) } =
         false)) := by
  refine ⟨by simp [toggleDispatch, h], by simp [checkTimeoutDispatch, h], ?_⟩
  simp only [onRelease]
  split
  · rename_i hcond
    simp only [Bool.and_eq_true, Bool.not_eq_true'] at hcond
    simp only [true_iff]
    exact ⟨hcond.1.1, hcond.1.2, hcond.2⟩
  · rename_i hcond
    constructor
    · intro hsome
      cases hsome
    · rintro ⟨h1, h2, h3⟩
      apply absurd _ hcond
      rw [h3, h1, h2]
      rfl

/-- Witness for the amended C2: processing set, push-to-talk on,
recording, combo released by the release event. -/
theorem claim_C2_amended_witness :
    (⟨⟨[[0]], true, true, some 0, 120, false⟩, true, [PKey.fkey 15],
      [PKey.fkey 15], true, true, Icon.processing⟩ : AppState).processing = true ∧
    (toggleDispatch (⟨⟨[[0]], true, true, some 0, 120, false⟩, true, [PKey.fkey 15],
      [PKey.fkey 15], true, true, Icon.processing⟩ : AppState) = none ∧
     checkTimeoutDispatch (⟨⟨[[0]], true, true, some 0, 120, false⟩, true,
      [PKey.fkey 15], [PKey.fkey 15], true, true, Icon.processing⟩ : AppState) = none ∧
     ((onRelease (⟨⟨[[0]], true, true, some 0, 120, false⟩, true, [PKey.fkey 15],
        [PKey.fkey 15], true, true, Icon.processing⟩ : AppState)
        (PKey.fkey 15)).2 = some Dispatch.stopProcess ↔
       ((⟨⟨[[0]], true, true, some 0, 120, false⟩, true, [PKey.fkey 15],
          [PKey.fkey 15], true, true, Icon.processing⟩ : AppState).push_to_talk = true ∧
        (⟨⟨[[0]], true, true, some 0, 120, false⟩, true, [PKey.fkey 15],
          [PKey.fkey 15], true, true, Icon.processing⟩ : AppState).recorder.is_recording
          = true ∧
        checkHotkey
          { (⟨⟨[[0]], true, true, some 0, 120, false⟩, true, [PKey.fkey 15],
              [PKey.fkey 15], true, true, Icon.processing⟩ : AppState) with
            current_keys :=
              removeKey (⟨⟨[[0]], true, true, some 0, 120, false⟩, true,
                [PKey.fkey 15], [PKey.fkey 15], true, true,
                Icon.processing⟩ : AppState).current_keys
                (normalizeKey (PKey.fkey 15)) } = false))) :=
  ⟨rfl, claim_C2_amended _ (PKey.fkey 15) rfl⟩

/-! ## Claim C7 -/

/-- A press of F15 when it is not held, under the one-key combo F15:
the toggle is reached and the key is added to the held set. -/
theorem onPress_f15_new (a : AppState) (hk : a.hotkey = [PKey.fkey 15])
    (h : PKey.fkey 15 ∉ a.current_keys) :
    (onPress a (PKey.fkey 15)).2 = true ∧
    (onPress a (PKey.fkey 15)).1.current_keys =
      insertKey a.current_keys (PKey.fkey 15) ∧
    (onPress a (PKey.fkey 15)).1.hotkey = a.hotkey := by
  simp only [onPress, normalizeKey]
  rw [if_neg h]
  refine ⟨?_, rfl, rfl⟩
  rw [checkHotkey_single _ (by simp [hk])]
  simp [mem_insertKey]

/-- A press of a key already held returns immediately, invoking
nothing and changing nothing. -/
theorem onPress_f15_held (a : AppState)
    (h : PKey.fkey 15 ∈ a.current_keys) :
    onPress a (PKey.fkey 15) = (a, false) := by
  simp only [onPress, normalizeKey]
  rw [if_pos h]

/-- Field view of the state after `_on_release`. -/
theorem onRelease_keys (a : AppState) (k : PKey) :
    (onRelease a k).1.current_keys = removeKey a.current_keys (normalizeKey k) ∧
    (onRelease a k).1.hotkey = a.hotkey := by
  rw [onRelease_fst]
  exact ⟨rfl, rfl⟩

/-- C7: with combo F15, not recording and F15 not held, three presses
with no release reach the toggle exactly once (the repeated presses
return before testing the combo), and a release followed by a press
reaches the toggle a second time. -/
theorem claim_C7 (a : AppState)
    (hk : a.hotkey = [PKey.fkey 15])
    (hrec : a.recorder.is_recording = false)
    (hheld : PKey.fkey 15 ∉ a.current_keys) :
    (onPress a (PKey.fkey 15)).2 = true ∧
    (onPress (onPress a (PKey.fkey 15)).1 (PKey.fkey 15)).2 = false ∧
    (onPress (onPress (onPress a (PKey.fkey 15)).1 (PKey.fkey 15)).1
      (PKey.fkey 15)).2 = false ∧
    (onPress (onRelease (onPress (onPress (onPress a (PKey.fkey 15)).1
        (PKey.fkey 15)).1 (PKey.fkey 15)).1 (PKey.fkey 15)).1 (PKey.fkey 15)).2 =
      true := by
  have s1 := onPress_f15_new a hk hheld
  have hk1 : (onPress a (PKey.fkey 15)).1.hotkey = [PKey.fkey 15] := by
    rw [s1.2.2, hk]
  have hm1 : PKey.fkey 15 ∈ (onPress a (PKey.fkey 15)).1.current_keys := by
    rw [s1.2.1]
    exact (mem_insertKey _ _ _).mpr (Or.inr rfl)
  have s2 := onPress_f15_held _ hm1
  have e2 : (onPress (onPress a (PKey.fkey 15)).1 (PKey.fkey 15)).1 =
      (onPress a (PKey.fkey 15)).1 := by rw [s2]
  have hk2 : (onRelease (onPress a (PKey.fkey 15)).1 (PKey.fkey 15)).1.hotkey =
      [PKey.fkey 15] := by
    rw [(onRelease_keys _ _).2, hk1]
  have hm2 : PKey.fkey 15 ∉
      (onRelease (onPress a (PKey.fkey 15)).1 (PKey.fkey 15)).1.current_keys := by
    rw [(onRelease_keys _ _).1]
    exact not_mem_removeKey _ _
  have s4 := onPress_f15_new _ hk2 hm2
  refine ⟨s1.1, by rw [s2], by rw [e2, s2], ?_⟩
  rw [e2, e2]
  exact s4.1

/-- Witness for C7 from the startup state with an idle recorder. -/
theorem claim_C7_witness :
    (⟨RecorderState.init 120, false, [], [PKey.fkey 15], false, true,
        Icon.idle⟩ : AppState).hotkey = [PKey.fkey 15] ∧
    (⟨RecorderState.init 120, false, [], [PKey.fkey 15], false, true,
        Icon.idle⟩ : AppState).recorder.is_recording = false ∧
    PKey.fkey 15 ∉ (⟨RecorderState.init 120, false, [], [PKey.fkey 15], false, true,
        Icon.idle⟩ : AppState).current_keys ∧
    ((onPress (⟨RecorderState.init 120, false, [], [PKey.fkey 15], false, true,
        Icon.idle⟩ : AppState) (PKey.fkey 15)).2 = true ∧
     (onPress (onPress (⟨RecorderState.init 120, false, [], [PKey.fkey 15], false, true,
        Icon.idle⟩ : AppState) (PKey.fkey 15)).1 (PKey.fkey 15)).2 = false ∧
     (onPress (onPress (onPress (⟨RecorderState.init 120, false, [], [PKey.fkey 15],
        false, true, Icon.idle⟩ : AppState) (PKey.fkey 15)).1 (PKey.fkey 15)).1
        (PKey.fkey 15)).2 = false ∧
     (onPress (onRelease (onPress (onPress (onPress (⟨RecorderState.init 120, false, [],
        [PKey.fkey 15], false, true, Icon.idle⟩ : AppState) (PKey.fkey 15)).1
        (PKey.fkey 15)).1 (PKey.fkey 15)).1 (PKey.fkey 15)).1 (PKey.fkey 15)).2 =
       true) :=
  ⟨rfl, rfl, by decide, claim_C7 _ rfl rfl (by decide)⟩

/-! ## Claim C5 -/

/-- Whatever the collaborator outcomes, the pipeline leaves the icon
idle: every exit path of the `try` body either sets it to idle itself
or reaches the `except` handler that does. -/
theorem stopAndProcess_icon (a : AppState) (env : Env) :
    (stopAndProcess a env).1.icon = Icon.idle := by
  obtain ⟨tr, co, cr, cw, pa, hi, rw2, de, ex⟩ := env
  rcases hstop : recStop a.recorder with ⟨rec1, res⟩
  rcases res with e | artifact <;>
    rcases tr with etr | text <;>
    rcases co with eco | corrected <;>
    rcases cr with ecr | orig <;>
    rcases cw with ecw | u1 <;>
    rcases pa with epa | u2 <;>
    rcases hi with ehi | u3 <;>
    simp only [stopAndProcess, tryBody, hstop] <;>
    split_ifs <;>
    simp [iconAfterActs]

/-- C5: an empty-after-trim transcription short-circuits the pipeline —
no correction call, no clipboard write, no paste, no archival — and on
every exit path (early return, normal completion, or an exception in
any stage) the processing flag is false and the visible state is idle
when the pipeline exits. -/
theorem claim_C5 (a : AppState) (env : Env) :
    (∀ text, env.transcribe = .ok text → (pyStrip text.data).isEmpty = true →
      (eventsOf (stopAndProcess a env).2 = [] ∧
       ∀ inp, Act.correctCall inp ∉ (stopAndProcess a env).2)) ∧
    (stopAndProcess a env).1.processing = false ∧
    (stopAndProcess a env).1.icon = Icon.idle := by
  refine ⟨?_, rfl, stopAndProcess_icon a env⟩
  rintro text htr hemp
  rcases hstop : recStop a.recorder with ⟨rec1, res⟩
  rcases res with e | artifact
  · constructor
    · simp [stopAndProcess, tryBody, hstop, eventsOf, isOutputAct]
    · intro inp
      simp [stopAndProcess, tryBody, hstop]
  · cases hex : env.artifactExists
    · constructor
      · simp [stopAndProcess, tryBody, hstop, htr, hemp, hex, eventsOf, isOutputAct]
      · intro inp
        simp [stopAndProcess, tryBody, hstop, htr, hemp, hex]
    · constructor
      · simp [stopAndProcess, tryBody, hstop, htr, hemp, hex, eventsOf, isOutputAct]
      · intro inp
        simp [stopAndProcess, tryBody, hstop, htr, hemp, hex]

/-- Witness for C5 on a concrete whitespace-only transcription. -/
theorem claim_C5_witness :
    (⟨.ok " ", .ok "c", .error "e", .ok (), .ok (), .ok (), .ok (), .ok (),
        true⟩ : Env).transcribe = .ok " " ∧
    (pyStrip (" " : String).data).isEmpty = true ∧
    eventsOf (stopAndProcess
      (⟨⟨[[0]], true, true, some 0, 120, false⟩, false, [], [PKey.fkey 15], false,
         true, Icon.recording⟩ : AppState)
      (⟨.ok " ", .ok "c", .error "e", .ok (), .ok (), .ok (), .ok (), .ok (),
         true⟩ : Env)).2 = [] ∧
    Act.correctCall "c" ∉ (stopAndProcess
      (⟨⟨[[0]], true, true, some 0, 120, false⟩, false, [], [PKey.fkey 15], false,
         true, Icon.recording⟩ : AppState)
      (⟨.ok " ", .ok "c", .error "e", .ok (), .ok (), .ok (), .ok (), .ok (),
         true⟩ : Env)).2 ∧
    (stopAndProcess
      (⟨⟨[[0]], true, true, some 0, 120, false⟩, false, [], [PKey.fkey 15], false,
         true, Icon.recording⟩ : AppState)
      (⟨.ok " ", .ok "c", .error "e", .ok (), .ok (), .ok (), .ok (), .ok (),
         true⟩ : Env)).1.processing = false ∧
    (stopAndProcess
      (⟨⟨[[0]], true, true, some 0, 120, false⟩, false, [], [PKey.fkey 15], false,
         true, Icon.recording⟩ : AppState)
      (⟨.ok " ", .ok "c", .error "e", .ok (), .ok (), .ok (), .ok (), .ok (),
         true⟩ : Env)).1.icon = Icon.idle := by
  have h := claim_C5
    (⟨⟨[[0]], true, true, some 0, 120, false⟩, false, [], [PKey.fkey 15], false,
       true, Icon.recording⟩ : AppState)
    (⟨.ok " ", .ok "c", .error "e", .ok (), .ok (), .ok (), .ok (), .ok (),
       true⟩ : Env)
  have h1 := h.1 " " rfl (by decide)
  exact ⟨rfl, by decide, h1.1, h1.2 "c", h.2.1, h.2.2⟩

/-! ## Claim C6 -/

/-- C6 counterexample: in a fully successful run with clipboard
restoration enabled, the archival hand-off happens strictly before the
original clipboard is restored (the restore lives in the `finally`
block, the archival inside the `try` body), contradicting the claimed
step-8-before-step-9 order. -/
theorem claim_C6_counterexample :
    Act.historySave "t" "test" ∈ (stopAndProcess
      (⟨⟨[[1]], true, true, some 0, 120, false⟩, false, [], [PKey.fkey 15], false,
         true, Icon.recording⟩ : AppState)
      (⟨.ok "t", .ok "test", .ok "old", .ok (), .ok (), .ok (), .ok (), .ok (),
         true⟩ : Env)).2 ∧
    Act.clipboardWrite "old" ∈ (stopAndProcess
      (⟨⟨[[1]], true, true, some 0, 120, false⟩, false, [], [PKey.fkey 15], false,
         true, Icon.recording⟩ : AppState)
      (⟨.ok "t", .ok "test", .ok "old", .ok (), .ok (), .ok (), .ok (), .ok (),
         true⟩ : Env)).2 ∧
    (stopAndProcess
      (⟨⟨[[1]], true, true, some 0, 120, false⟩, false, [], [PKey.fkey 15], false,
         true, Icon.recording⟩ : AppState)
      (⟨.ok "t", .ok "test", .ok "old", .ok (), .ok (), .ok (), .ok (), .ok (),
         true⟩ : Env)).2.indexOf (Act.historySave "t" "test") <
    (stopAndProcess
      (⟨⟨[[1]], true, true, some 0, 120, false⟩, false, [], [PKey.fkey 15], false,
         true, Icon.recording⟩ : AppState)
      (⟨.ok "t", .ok "test", .ok "old", .ok (), .ok (), .ok (), .ok (), .ok (),
         true⟩ : Env)).2.indexOf (Act.clipboardWrite "old") := by
  decide

/-- C6 amended: in a fully successful run with clipboard restoration
enabled and an original value captured, the output events are exactly:
a clipboard write of the corrected text, one paste, the archival
hand-off, and finally a clipboard write of the original value — so the
clipboard is written exactly twice in that order, the paste happens
exactly once between the two writes, and the restoration of the
original clipboard happens after (not before) the archival hand-off. -/
theorem claim_C6_amended (a : AppState) (env : Env)
    (text corrected orig : String)
    (hres : a.restore_clipboard = true)
    (hrec : a.recorder.is_recording = true)
    (hfr : a.recorder.frames.isEmpty = false)
    (htr : env.transcribe = .ok text)
    (hne : (pyStrip text.data).isEmpty = false)
    (hco : env.correct = .ok corrected)
    (hcr : env.clipRead = .ok orig)
    (hcw : env.clipWrite = .ok ())
    (hpa : env.pasteRes = .ok ())
    (hex : env.artifactExists = true)
    (hhi : env.history = .ok ()) :
    eventsOf (stopAndProcess a env).2 =
      [Act.clipboardWrite corrected, Act.paste, Act.historySave text corrected,
       Act.clipboardWrite orig] := by
  have hstop : recStop a.recorder =
      ({ a.recorder with stream_open := false, is_recording := false,
                         timeout_reached := false },
       .ok a.recorder.frames.flatten) := by
    simp [recStop, hrec, hfr]
  simp [stopAndProcess, tryBody, hstop, htr, hne, hco, hres, hcr, hcw, hpa, hex,
        hhi, eventsOf, isOutputAct]

/-- Witness for the amended C6 on the concrete scenario of the spec:
transcription, correction "test", original clipboard "old". -/
theorem claim_C6_amended_witness :
    (⟨⟨[[1]], true, true, some 0, 120, false⟩, false, [], [PKey.fkey 15], false,
       true, Icon.recording⟩ : AppState).restore_clipboard = true ∧
    (⟨⟨[[1]], true, true, some 0, 120, false⟩, false, [], [PKey.fkey 15], false,
       true, Icon.recording⟩ : AppState).recorder.is_recording = true ∧
    (⟨⟨[[1]], true, true, some 0, 120, false⟩, false, [], [PKey.fkey 15], false,
       true, Icon.recording⟩ : AppState).recorder.frames.isEmpty = false ∧
    (pyStrip ("t" : String).data).isEmpty = false ∧
    eventsOf (stopAndProcess
      (⟨⟨[[1]], true, true, some 0, 120, false⟩, false, [], [PKey.fkey 15], false,
         true, Icon.recording⟩ : AppState)
      (⟨.ok "t", .ok "test", .ok "old", .ok (), .ok (), .ok (), .ok (), .ok (),
         true⟩ : Env)).2 =
      [Act.clipboardWrite "test", Act.paste, Act.historySave "t" "test",
       Act.clipboardWrite "old"] :=
  ⟨rfl, rfl, rfl, by decide,
   claim_C6_amended _ _ "t" "test" "old" rfl rfl rfl rfl (by decide) rfl rfl rfl
     rfl rfl rfl⟩

/-! ## Character lemmas (ASCII case mapping) -/

/-- Round trip of `Char.ofNat` on valid code points. -/
theorem ofNat_toNat_valid (n : Nat) (h : Nat.isValidChar n) :
    (Char.ofNat n).toNat = n := by
  simp only [Char.ofNat, dif_pos h, Char.ofNatAux, Char.toNat]
  simp [UInt32.toNat]

/-- Characters with equal code points are equal. -/
theorem char_toNat_inj {a b : Char} (h : a.toNat = b.toNat) : a = b := by
  apply Char.ext
  unfold Char.toNat at h
  exact UInt32.toNat.inj h

/-- `toLower` is the identity outside the uppercase ASCII letters. -/
theorem toLower_of_out (c : Char) (hd : c.toNat < 65 ∨ c.toNat > 90) :
    c.toLower = c := by
  unfold Char.toLower
  rw [if_neg (by omega)]

/-- `toUpper` is the identity outside the lowercase ASCII letters. -/
theorem toUpper_of_out (c : Char) (hd : c.toNat < 97 ∨ c.toNat > 122) :
    c.toUpper = c := by
  unfold Char.toUpper
  rw [if_neg (by omega)]

/-- `toLower` on an uppercase ASCII letter. -/
theorem toLower_of_in (c : Char) (hd : 65 ≤ c.toNat ∧ c.toNat ≤ 90) :
    c.toLower = Char.ofNat (c.toNat + 32) := by
  unfold Char.toLower
  rw [if_pos hd]

/-- `toUpper` on a lowercase ASCII letter. -/
theorem toUpper_of_in (c : Char) (hd : 97 ≤ c.toNat ∧ c.toNat ≤ 122) :
    c.toUpper = Char.ofNat (c.toNat - 32) := by
  unfold Char.toUpper
  rw [if_pos hd]

/-- Lower-casing is idempotent. -/
theorem toLower_idem (c : Char) : c.toLower.toLower = c.toLower := by
  by_cases hc : 65 ≤ c.toNat ∧ c.toNat ≤ 90
  · have hv : Nat.isValidChar (c.toNat + 32) := Or.inl (by omega)
    rw [toLower_of_in c hc]
    apply toLower_of_out
    rw [ofNat_toNat_valid _ hv]
    omega
  · rw [toLower_of_out c (by omega)]
    exact toLower_of_out c (by omega)

/-- Lower-casing undoes upper-casing on an already-lower-cased
character. -/
theorem toLower_toUpper_fix (c : Char) (h : c.toLower = c) :
    c.toUpper.toLower = c := by
  by_cases hc : 97 ≤ c.toNat ∧ c.toNat ≤ 122
  · have hv : Nat.isValidChar (c.toNat - 32) := Or.inl (by omega)
    rw [toUpper_of_in c hc]
    rw [toLower_of_in _ (by rw [ofNat_toNat_valid _ hv]; omega)]
    rw [ofNat_toNat_valid _ hv]
    have hs : c.toNat - 32 + 32 = c.toNat := by omega
    rw [hs]
    apply char_toNat_inj
    rw [ofNat_toNat_valid _ (by unfold Nat.isValidChar; omega)]
  · rw [toUpper_of_out c (by omega)]
    exact h

/-- Upper-casing cannot produce the plus sign from another character. -/
theorem toUpper_toNat_43 (c : Char) (h : c.toUpper.toNat = 43) : c.toNat = 43 := by
  by_cases hc : 97 ≤ c.toNat ∧ c.toNat ≤ 122
  · rw [toUpper_of_in c hc, ofNat_toNat_valid _ (Or.inl (by omega))] at h
    omega
  · rw [toUpper_of_out c (by omega)] at h
    exact h

/-- Lower-casing cannot produce the plus sign from another character. -/
theorem toLower_toNat_43 (c : Char) (h : c.toLower.toNat = 43) : c.toNat = 43 := by
  by_cases hc : 65 ≤ c.toNat ∧ c.toNat ≤ 90
  · rw [toLower_of_in c hc, ofNat_toNat_valid _ (Or.inl (by omega))] at h
    omega
  · rw [toLower_of_out c (by omega)] at h
    exact h

/-- Characters at code point 33 or above are not Python whitespace. -/
theorem isPySpace_false_of_ge (c : Char) (h : 33 ≤ c.toNat) :
    isPySpace c = false := by
  have hne : ∀ d : Char, d.toNat < 33 → (decide (c = d)) = false := fun d hd =>
    decide_eq_false (fun heq => by rw [heq] at h; omega)
  unfold isPySpace
  rw [hne ' ' (by decide), hne '\t' (by decide), hne '\n' (by decide),
      hne '\x0d' (by decide), hne '\x0b' (by decide), hne '\x0c' (by decide)]
  rfl

/-- Lower-casing preserves whitespace-ness. -/
theorem isPySpace_toLower (c : Char) : isPySpace c.toLower = isPySpace c := by
  by_cases hc : 65 ≤ c.toNat ∧ c.toNat ≤ 90
  · rw [toLower_of_in c hc]
    rw [isPySpace_false_of_ge _
      (by rw [ofNat_toNat_valid _ (Or.inl (by omega))]; omega)]
    rw [isPySpace_false_of_ge c (by omega)]
  · rw [toLower_of_out c (by omega)]

/-- Upper-casing preserves whitespace-ness. -/
theorem isPySpace_toUpper (c : Char) : isPySpace c.toUpper = isPySpace c := by
  by_cases hc : 97 ≤ c.toNat ∧ c.toNat ≤ 122
  · rw [toUpper_of_in c hc]
    rw [isPySpace_false_of_ge _
      (by rw [ofNat_toNat_valid _ (Or.inl (by omega))]; omega)]
    rw [isPySpace_false_of_ge c (by omega)]
  · rw [toUpper_of_out c (by omega)]

/-! ## Lemmas on splitting, joining and stripping -/

/-- Splitting never produces an empty list of pieces. -/
theorem splitPlus_ne_nil (xs : List Char) : splitPlus xs ≠ [] := by
  induction xs with
  | nil => simp [splitPlus]
  | cons c rest ih =>
    rcases h : splitPlus rest with _ | ⟨t, ts⟩
    · exact absurd h ih
    · simp only [splitPlus, h]
      split <;> simp

/-- Characters of a split piece come from the input and are never the
separator. -/
theorem mem_splitPlus (xs : List Char) (t : List Char) (ht : t ∈ splitPlus xs)
    (c : Char) (hc : c ∈ t) : c ∈ xs ∧ c ≠ '+' := by
  induction xs generalizing t with
  | nil =>
    simp only [splitPlus, List.mem_singleton] at ht
    subst ht
    cases hc
  | cons d rest ih =>
    rcases hsp : splitPlus rest with _ | ⟨t0, ts⟩
    · exact absurd hsp (splitPlus_ne_nil rest)
    · simp only [splitPlus, hsp] at ht
      by_cases hd : d = '+'
      · rw [if_pos hd] at ht
        rcases List.mem_cons.mp ht with h1 | h2
        · subst h1
          cases hc
        · have := ih t (by rw [hsp]; exact h2) hc
          exact ⟨List.mem_cons_of_mem _ this.1, this.2⟩
      · rw [if_neg hd] at ht
        rcases List.mem_cons.mp ht with h1 | h2
        · subst h1
          rcases List.mem_cons.mp hc with h3 | h4
          · subst h3
            exact ⟨List.mem_cons_self _ _, hd⟩
          · have := ih t0 (by rw [hsp]; exact List.mem_cons_self _ _) h4
            exact ⟨List.mem_cons_of_mem _ this.1, this.2⟩
        · have := ih t (by rw [hsp]; exact List.mem_cons_of_mem _ h2) hc
          exact ⟨List.mem_cons_of_mem _ this.1, this.2⟩

/-- Splitting a separator-free list yields a single piece. -/
theorem splitPlus_no_plus (xs : List Char) (h : ∀ c ∈ xs, c ≠ '+') :
    splitPlus xs = [xs] := by
  induction xs with
  | nil => rfl
  | cons c rest ih =>
    have hrest : ∀ d ∈ rest, d ≠ '+' := fun d hd => h d (List.mem_cons_of_mem _ hd)
    simp only [splitPlus, ih hrest]
    rw [if_neg (h c (List.mem_cons_self _ _))]

/-- Splitting around a separator after a separator-free prefix. -/
theorem splitPlus_append_plus (xs ys : List Char) (h : ∀ c ∈ xs, c ≠ '+') :
    splitPlus (xs ++ '+' :: ys) = xs :: splitPlus ys := by
  induction xs with
  | nil =>
    rcases hsp : splitPlus ys with _ | ⟨t, ts⟩
    · exact absurd hsp (splitPlus_ne_nil ys)
    · rw [List.nil_append]
      simp only [splitPlus, hsp]
      simp
  | cons c rest ih =>
    have hrest : ∀ d ∈ rest, d ≠ '+' := fun d hd => h d (List.mem_cons_of_mem _ hd)
    rw [List.cons_append]
    simp only [splitPlus, ih hrest]
    rw [if_neg (h c (List.mem_cons_self _ _))]

/-- Splitting undoes joining for separator-free, non-empty piece lists. -/
theorem splitPlus_joinPlus : ∀ (parts : List (List Char)), parts ≠ [] →
    (∀ p ∈ parts, ∀ c ∈ p, c ≠ '+') → splitPlus (joinPlus parts) = parts
  | [], hne, _ => absurd rfl hne
  | [x], _, h => by
      simp only [joinPlus]
      exact splitPlus_no_plus x (h x (List.mem_cons_self _ _))
  | x :: y :: rest, _, h => by
      simp only [joinPlus]
      rw [splitPlus_append_plus x _ (h x (List.mem_cons_self _ _))]
      rw [splitPlus_joinPlus (y :: rest) (by simp)
        (fun p hp => h p (List.mem_cons_of_mem _ hp))]

/-- Characters of a join are the separator or characters of a piece. -/
theorem mem_joinPlus : ∀ (parts : List (List Char)) (c : Char),
    c ∈ joinPlus parts → c = '+' ∨ ∃ p ∈ parts, c ∈ p
  | [], c, h => by cases h
  | [x], c, h => by
      right
      exact ⟨x, List.mem_cons_self _ _, h⟩
  | x :: y :: rest, c, h => by
      rcases List.mem_append.mp h with h1 | h2
      · exact Or.inr ⟨x, List.mem_cons_self _ _, h1⟩
      · rcases List.mem_cons.mp h2 with h3 | h4
        · exact Or.inl h3
        · rcases mem_joinPlus (y :: rest) c h4 with h5 | ⟨p, hp, hcp⟩
          · exact Or.inl h5
          · exact Or.inr ⟨p, List.mem_cons_of_mem _ hp, hcp⟩

/-- Lower-casing passes through a join. -/
theorem map_toLower_joinPlus : ∀ (parts : List (List Char)),
    (joinPlus parts).map Char.toLower =
      joinPlus (parts.map (List.map Char.toLower))
  | [] => rfl
  | [x] => rfl
  | x :: y :: rest => by
      simp only [joinPlus, List.map_append, List.map_cons, List.map]
      rw [show ('+').toLower = '+' from by decide]
      rw [show (joinPlus (y :: rest)).map Char.toLower =
            joinPlus ((y :: rest).map (List.map Char.toLower)) from
          map_toLower_joinPlus (y :: rest)]
      rfl

/-- Membership in a stripped list implies membership in the original. -/
theorem mem_pyStrip {l : List Char} {c : Char} (h : c ∈ pyStrip l) : c ∈ l := by
  unfold pyStrip at h
  have h1 := List.mem_reverse.mp h
  have h2 := (List.dropWhile_sublist isPySpace).subset h1
  have h3 := List.mem_reverse.mp h2
  exact (List.dropWhile_sublist isPySpace).subset h3

/-- The head surviving a `dropWhile` fails the predicate. -/
theorem dropWhile_head_false {p : Char → Bool} :
    ∀ {l : List Char} {c : Char} {rest : List Char},
      l.dropWhile p = c :: rest → p c = false := by
  intro l
  induction l with
  | nil =>
    intro c rest h
    simp [List.dropWhile] at h
  | cons a as ih =>
    intro c rest h
    rw [List.dropWhile_cons] at h
    by_cases hp : p a = true
    · rw [if_pos hp] at h
      exact ih h
    · rw [if_neg hp] at h
      obtain ⟨h1, h2⟩ := List.cons.inj h
      subst h1
      exact Bool.not_eq_true _ ▸ hp

/-- A singleton strip result is not whitespace. -/
theorem pyStrip_single {l : List Char} {c : Char} (h : pyStrip l = [c]) :
    isPySpace c = false := by
  unfold pyStrip at h
  have h2 : (l.dropWhile isPySpace).reverse.dropWhile isPySpace = [c] := by
    have := congrArg List.reverse h
    simpa using this
  exact dropWhile_head_false h2

/-- Stripping a whitespace-free list is the identity. -/
theorem pyStrip_eq_self {l : List Char} (h : ∀ c ∈ l, isPySpace c = false) :
    pyStrip l = l := by
  have hd : ∀ (m : List Char), (∀ c ∈ m, isPySpace c = false) →
      m.dropWhile isPySpace = m := by
    intro m hm
    cases m with
    | nil => rfl
    | cons a as =>
      rw [List.dropWhile_cons, if_neg (by simp [hm a (List.mem_cons_self _ _)])]
  unfold pyStrip
  rw [hd l h, hd _ (fun c hc => h c (List.mem_reverse.mp hc)), List.reverse_reverse]

/-! ## Token classification lemmas -/

/-- Success cases of the single-character fallback. -/
theorem singleOrUnknown_ok {t : List Char} {k : PKey}
    (h : singleOrUnknown t = .ok k) : ∃ c, t = [c] ∧ k = .char c := by
  rcases t with _ | ⟨c, _ | ⟨d, r⟩⟩
  · simp [singleOrUnknown] at h
  · injection h with h
    exact ⟨c, rfl, h.symm⟩
  · simp [singleOrUnknown] at h

/-- Success cases of the function-key attribute lookup. -/
theorem fnLookup_some {t : List Char} {k : PKey} (h : fnLookup t = some k) :
    ∃ n, 1 ≤ n ∧ n ≤ 20 ∧ t = fnName n ∧ k = .fkey n := by
  unfold fnLookup at h
  rcases hf : ((List.range 20).map (· + 1)).find? (fun n => t = fnName n)
    with _ | n
  · rw [hf] at h
    cases h
  · rw [hf] at h
    injection h with h
    have hm := List.mem_of_find?_eq_some hf
    have hp := List.find?_some hf
    simp only [List.mem_map, List.mem_range] at hm
    obtain ⟨i, hi, rfl⟩ := hm
    refine ⟨i + 1, by omega, by omega, by simpa using hp, h.symm⟩

/-- The lookup succeeds on every canonical function-key name. -/
theorem fnLookup_fnName {n : Nat} (h1 : 1 ≤ n) (h2 : n ≤ 20) :
    fnLookup (fnName n) = some (.fkey n) := by
  interval_cases n <;> decide

/-- Spec-side function-key tokens are exactly the canonical names. -/
theorem fnTokenB_iff (t : List Char) :
    fnTokenB t = true ↔ ∃ n, 1 ≤ n ∧ n ≤ 20 ∧ t = fnName n := by
  unfold fnTokenB
  rw [List.any_eq_true]
  constructor
  · rintro ⟨n, hn, hbeq⟩
    simp only [List.mem_map, List.mem_range] at hn
    obtain ⟨i, hi, rfl⟩ := hn
    exact ⟨i + 1, by omega, by omega, by simpa using hbeq⟩
  · rintro ⟨n, h1, h2, rfl⟩
    refine ⟨n, ?_, by simp⟩
    simp only [List.mem_map, List.mem_range]
    exact ⟨n - 1, by omega, by omega⟩

/-- Canonical function-key names have the function-key shape. -/
theorem fnShaped_fnName {n : Nat} (h1 : 1 ≤ n) (h2 : n ≤ 20) :
    fnShaped (fnName n) = true := by
  interval_cases n <;> decide

/-- Spec-side modifier tokens are exactly the four names. -/
theorem modTokenB_iff (t : List Char) :
    modTokenB t = true ↔
      (t = ['c', 't', 'r', 'l'] ∨ t = ['s', 'h', 'i', 'f', 't'] ∨
       t = ['a', 'l', 't'] ∨ t = ['c', 'm', 'd']) := by
  unfold modTokenB
  simp only [Bool.or_eq_true, beq_iff_eq]
  tauto

/-- A function-key-shaped token is not empty. -/
theorem fnShaped_ne_nil {t : List Char} (h : fnShaped t = true) :
    t.isEmpty = false := by
  rcases t with _ | ⟨c, r⟩
  · simp [fnShaped] at h
  · rfl

/-- A function-key-shaped token has at least two characters. -/
theorem fnShaped_length {t : List Char} (h : fnShaped t = true) :
    2 ≤ t.length := by
  rcases t with _ | ⟨c, _ | ⟨d, r⟩⟩
  · simp [fnShaped] at h
  · simp [fnShaped] at h
  · simp only [List.length_cons]
    omega

/-- Shape of every successful classification. -/
theorem classify_ok_cases {t : List Char} {k : PKey}
    (h : classifyToken t = .ok k) :
    (t = ['c', 't', 'r', 'l'] ∧ k = .ctrl) ∨
    (t = ['s', 'h', 'i', 'f', 't'] ∧ k = .shift) ∨
    (t = ['a', 'l', 't'] ∧ k = .alt) ∨
    (t = ['c', 'm', 'd'] ∧ k = .cmd) ∨
    (∃ n, 1 ≤ n ∧ n ≤ 20 ∧ t = fnName n ∧ k = .fkey n) ∨
    (∃ c, t = [c] ∧ k = .char c) := by
  unfold classifyToken at h
  by_cases h1 : t = ['c', 't', 'r', 'l']
  · rw [if_pos h1] at h
    injection h with h
    exact Or.inl ⟨h1, h.symm⟩
  rw [if_neg h1] at h
  by_cases h2 : t = ['s', 'h', 'i', 'f', 't']
  · rw [if_pos h2] at h
    injection h with h
    exact Or.inr (Or.inl ⟨h2, h.symm⟩)
  rw [if_neg h2] at h
  by_cases h3 : t = ['a', 'l', 't']
  · rw [if_pos h3] at h
    injection h with h
    exact Or.inr (Or.inr (Or.inl ⟨h3, h.symm⟩))
  rw [if_neg h3] at h
  by_cases h4 : t = ['c', 'm', 'd']
  · rw [if_pos h4] at h
    injection h with h
    exact Or.inr (Or.inr (Or.inr (Or.inl ⟨h4, h.symm⟩)))
  rw [if_neg h4] at h
  by_cases h5 : fnShaped t = true
  · rw [if_pos h5] at h
    by_cases h6 : 1 ≤ digitsVal (t.drop 1) ∧ digitsVal (t.drop 1) ≤ 20
    · rw [if_pos h6] at h
      rcases hfl : fnLookup t with _ | k0
      · rw [hfl] at h
        cases h
      · rw [hfl] at h
        injection h with h
        obtain ⟨n, hn1, hn2, hname, hk0⟩ := fnLookup_some hfl
        exact Or.inr (Or.inr (Or.inr (Or.inr (Or.inl
          ⟨n, hn1, hn2, hname, by rw [← h, hk0]⟩))))
    · rw [if_neg h6] at h
      cases h
  · rw [if_neg h5] at h
    obtain ⟨c, hc, hk⟩ := singleOrUnknown_ok h
    exact Or.inr (Or.inr (Or.inr (Or.inr (Or.inr ⟨c, hc, hk⟩))))

/-- The four modifier equalities failing means the spec modifier rule
fails. -/
theorem modTokenB_false_of {t : List Char} (h1 : t ≠ ['c', 't', 'r', 'l'])
    (h2 : t ≠ ['s', 'h', 'i', 'f', 't']) (h3 : t ≠ ['a', 'l', 't'])
    (h4 : t ≠ ['c', 'm', 'd']) : modTokenB t = false := by
  cases hm : modTokenB t
  · rfl
  · rcases (modTokenB_iff t).mp hm with h | h | h | h <;> tauto

/-- A token flagged out-of-range by the spec rule is not empty. -/
theorem fnOutOfRangeB_ne_empty {t : List Char} (h : fnOutOfRangeB t = true) :
    t.isEmpty = false := by
  unfold fnOutOfRangeB at h
  rw [Bool.and_eq_true] at h
  exact fnShaped_ne_nil h.1

/-- The classification succeeds exactly when the (amended) spec token
rule matches and the function-key number is not out of range. -/
theorem classify_exOk_iff (t : List Char) :
    exOk (classifyToken t) = true ↔
      (specRuleAmended t = true ∧ fnOutOfRangeB t = false) := by
  unfold classifyToken
  by_cases h1 : t = ['c', 't', 'r', 'l']
  · subst h1; decide
  rw [if_neg h1]
  by_cases h2 : t = ['s', 'h', 'i', 'f', 't']
  · subst h2; decide
  rw [if_neg h2]
  by_cases h3 : t = ['a', 'l', 't']
  · subst h3; decide
  rw [if_neg h3]
  by_cases h4 : t = ['c', 'm', 'd']
  · subst h4; decide
  rw [if_neg h4]
  by_cases h5 : fnShaped t = true
  · rw [if_pos h5]
    have hout : fnOutOfRangeB t =
        (decide (digitsVal (t.drop 1) < 1) ||
         decide (20 < digitsVal (t.drop 1))) := by
      unfold fnOutOfRangeB
      rw [h5, Bool.true_and]
    by_cases h6 : 1 ≤ digitsVal (t.drop 1) ∧ digitsVal (t.drop 1) ≤ 20
    · rw [if_pos h6]
      have hout2 : fnOutOfRangeB t = false := by
        rw [hout]
        simp only [Bool.or_eq_false_iff, decide_eq_false_iff_not]
        omega
      rcases hfl : fnLookup t with _ | k0
      · have hspec : specRuleAmended t = false := by
          unfold specRuleAmended
          simp only [Bool.or_eq_false_iff]
          refine ⟨⟨?_, ?_⟩, ?_⟩
          · exact modTokenB_false_of h1 h2 h3 h4
          · cases hf : fnTokenB t
            · rfl
            · obtain ⟨n, hn1, hn2, rfl⟩ := (fnTokenB_iff t).mp hf
              rw [fnLookup_fnName hn1 hn2] at hfl
              cases hfl
          · have := fnShaped_length h5
            simp only [beq_eq_false_iff_ne, ne_eq]
            omega
        simp [exOk, hspec]
      · obtain ⟨n, hn1, hn2, hname, -⟩ := fnLookup_some hfl
        have hspec : specRuleAmended t = true := by
          unfold specRuleAmended
          rw [(fnTokenB_iff t).mpr ⟨n, hn1, hn2, hname⟩]
          simp
        simp [exOk, hspec, hout2]
    · rw [if_neg h6]
      have hout2 : fnOutOfRangeB t = true := by
        rw [hout]
        simp only [Bool.or_eq_true, decide_eq_true_eq]
        omega
      simp [exOk, hout2]
  · rw [if_neg h5]
    have h5f : fnShaped t = false := by
      cases hx : fnShaped t
      · rfl
      · exact absurd hx h5
    have hout : fnOutOfRangeB t = false := by
      unfold fnOutOfRangeB
      rw [h5f]
      rfl
    have hfn : fnTokenB t = false := by
      cases hf : fnTokenB t
      · rfl
      · obtain ⟨n, hn1, hn2, rfl⟩ := (fnTokenB_iff t).mp hf
        rw [fnShaped_fnName hn1 hn2] at h5f
        cases h5f
    have hspec : specRuleAmended t = (t.length == 1) := by
      unfold specRuleAmended
      rw [modTokenB_false_of h1 h2 h3 h4, hfn]
      rfl
    rw [hspec, hout]
    rcases t with _ | ⟨c, _ | ⟨d, r⟩⟩
    · simp [singleOrUnknown, exOk]
    · simp [singleOrUnknown, exOk]
    · constructor
      · intro hko
        simp [singleOrUnknown, exOk] at hko
      · rintro ⟨hlen, -⟩
        simp only [List.length_cons, Nat.beq_eq_true_eq] at hlen
        omega

/-! ## Parse loop lemmas -/

/-- Set insertion never empties the accumulator. -/
theorem insertKey_ne_nil (acc : List PKey) (k : PKey) : insertKey acc k ≠ [] := by
  unfold insertKey
  split
  · rename_i hmem
    intro he
    rw [he] at hmem
    cases hmem
  · simp

/-- Membership in a successful parse result: the accumulated keys plus
one key per classifiable non-empty token. -/
theorem parseTokens_ok_mem (src : String) :
    ∀ (ts : List (List Char)) (acc l : List PKey),
      parseTokens src ts acc = .ok l →
      l ≠ [] ∧ ∀ k, (k ∈ l ↔ (k ∈ acc ∨
        ∃ t ∈ ts, t.isEmpty = false ∧ classifyToken t = .ok k)) := by
  intro ts
  induction ts with
  | nil =>
    intro acc l h
    unfold parseTokens at h
    by_cases ha : acc.isEmpty
    · rw [if_pos ha] at h
      cases h
    · rw [if_neg ha] at h
      injection h with h
      subst h
      refine ⟨fun hl => ha (by rw [hl]; rfl), fun k => ?_⟩
      simp
  | cons t ts ih =>
    intro acc l h
    unfold parseTokens at h
    by_cases hte : t.isEmpty
    · rw [if_pos hte] at h
      obtain ⟨hne, hmem⟩ := ih acc l h
      refine ⟨hne, fun k => ?_⟩
      rw [hmem k]
      simp only [List.mem_cons, exists_eq_or_imp, hte]
      simp
    · have hte' : t.isEmpty = false := by
        cases hx : t.isEmpty
        · rfl
        · exact absurd hx hte
      rw [if_neg hte] at h
      rcases hcl : classifyToken t with e | k0
      · rw [hcl] at h
        cases h
      · rw [hcl] at h
        obtain ⟨hne, hmem⟩ := ih _ l h
        refine ⟨hne, fun k => ?_⟩
        rw [hmem k, mem_insertKey]
        simp only [List.mem_cons, exists_eq_or_imp, hte', hcl, true_and]
        constructor
        · rintro ((h | rfl) | h)
          · exact Or.inl h
          · exact Or.inr (Or.inl rfl)
          · exact Or.inr (Or.inr h)
        · rintro (h | he | h)
          · exact Or.inl (Or.inl h)
          · injection he with he
            exact Or.inl (Or.inr he.symm)
          · exact Or.inr h

/-- The parse loop succeeds exactly when every non-empty token
classifies and the result is non-empty. -/
theorem parseTokens_exOk_iff (src : String) :
    ∀ (ts : List (List Char)) (acc : List PKey),
      exOk (parseTokens src ts acc) = true ↔
        ((∀ t ∈ ts, t.isEmpty = false → exOk (classifyToken t) = true) ∧
         (acc ≠ [] ∨ ∃ t ∈ ts, t.isEmpty = false)) := by
  intro ts
  induction ts with
  | nil =>
    intro acc
    unfold parseTokens
    by_cases ha : acc.isEmpty
    · rw [if_pos ha]
      constructor
      · intro h
        simp [exOk] at h
      · rintro ⟨-, h | ⟨t, ht, -⟩⟩
        · exact absurd (List.isEmpty_iff.mp ha) h
        · cases ht
    · rw [if_neg ha]
      constructor
      · intro _
        refine ⟨by simp, Or.inl ?_⟩
        intro he
        exact ha (by rw [he]; rfl)
      · intro _
        rfl
  | cons t ts ih =>
    intro acc
    unfold parseTokens
    by_cases hte : t.isEmpty
    · rw [if_pos hte]
      rw [ih acc]
      constructor
      · rintro ⟨hall, hor⟩
        refine ⟨?_, ?_⟩
        · intro t1 ht1 hne
          rcases List.mem_cons.mp ht1 with rfl | hmem
          · rw [hte] at hne
            cases hne
          · exact hall t1 hmem hne
        · rcases hor with h | ⟨t1, ht1, hne⟩
          · exact Or.inl h
          · exact Or.inr ⟨t1, List.mem_cons_of_mem _ ht1, hne⟩
      · rintro ⟨hall, hor⟩
        refine ⟨fun t1 ht1 => hall t1 (List.mem_cons_of_mem _ ht1), ?_⟩
        rcases hor with h | ⟨t1, ht1, hne⟩
        · exact Or.inl h
        · rcases List.mem_cons.mp ht1 with rfl | hmem
          · rw [hte] at hne
            cases hne
          · exact Or.inr ⟨t1, hmem, hne⟩
    · have hte' : t.isEmpty = false := by
        cases hx : t.isEmpty
        · rfl
        · exact absurd hx hte
      rw [if_neg hte]
      rcases hcl : classifyToken t with e | k0
      · constructor
        · intro h
          simp [exOk] at h
        · rintro ⟨hall, -⟩
          have := hall t (List.mem_cons_self _ _) hte'
          rw [hcl] at this
          simp [exOk] at this
      · rw [ih (insertKey acc k0)]
        constructor
        · rintro ⟨hall, -⟩
          refine ⟨?_, Or.inr ⟨t, List.mem_cons_self _ _, hte'⟩⟩
          intro t1 ht1 hne
          rcases List.mem_cons.mp ht1 with rfl | hmem
          · rw [hcl]
            rfl
          · exact hall t1 hmem hne
        · rintro ⟨hall, -⟩
          exact ⟨fun t1 ht1 hne => hall t1 (List.mem_cons_of_mem _ ht1) hne,
                 Or.inl (insertKey_ne_nil acc k0)⟩

/-- Keys produced from any token of any input satisfy the parse-result
invariant. -/
theorem classify_good {s : String} {t : List Char} {k : PKey}
    (ht : t ∈ tokensOf s) (h : classifyToken t = .ok k) : GoodKey k := by
  rcases classify_ok_cases h with ⟨-, rfl⟩ | ⟨-, rfl⟩ | ⟨-, rfl⟩ | ⟨-, rfl⟩ |
    ⟨n, h1, h2, -, rfl⟩ | ⟨c, rfl, rfl⟩
  · trivial
  · trivial
  · trivial
  · trivial
  · exact ⟨h1, h2⟩
  · obtain ⟨u, hu, hstr⟩ : ∃ u ∈ splitPlus (pyStrip (s.data.map Char.toLower)),
        pyStrip u = [c] := by
      unfold tokensOf at ht
      obtain ⟨u, hu, he⟩ := List.mem_map.mp ht
      exact ⟨u, hu, he⟩
    have hcu : c ∈ u := mem_pyStrip (by rw [hstr]; exact List.mem_cons_self _ _)
    have hmem := mem_splitPlus _ u hu c hcu
    have hlow : c ∈ s.data.map Char.toLower := mem_pyStrip hmem.1
    obtain ⟨x, -, rfl⟩ := List.mem_map.mp hlow
    exact ⟨hmem.2, pyStrip_single hstr, toLower_idem x⟩

/-! ## Claim C9 -/

/-- `_parse_hotkey` fails exactly under the amended spec condition:
some non-empty token matches no rule (modifier, canonical function key,
or any single character), or a function-key-shaped token is out of
range, or every token is empty. -/
theorem hotkeyParse_fails_iff (s : String) :
    exOk (hotkeyParse s) = false ↔
      specParseFails specRuleAmended s = true := by
  have hspec : (specParseFails specRuleAmended s = true) ↔
      ((∃ t ∈ tokensOf s, t.isEmpty = false ∧ specRuleAmended t = false) ∨
       (∃ t ∈ tokensOf s, fnOutOfRangeB t = true) ∨
       (∀ t ∈ tokensOf s, t.isEmpty = true)) := by
    unfold specParseFails
    simp only [Bool.or_eq_true, List.any_eq_true, List.all_eq_true,
      Bool.and_eq_true, Bool.not_eq_true']
    rw [or_assoc]
  have hparse : (exOk (hotkeyParse s) = false) ↔
      ¬((∀ t ∈ tokensOf s, t.isEmpty = false → exOk (classifyToken t) = true) ∧
        (∃ t ∈ tokensOf s, t.isEmpty = false)) := by
    unfold hotkeyParse
    constructor
    · intro h hand
      have := (parseTokens_exOk_iff s (tokensOf s) []).mpr
        ⟨hand.1, Or.inr hand.2⟩
      rw [h] at this
      cases this
    · intro h
      cases hx : exOk (parseTokens s (tokensOf s) [])
      · rfl
      · obtain ⟨hall, hor⟩ := (parseTokens_exOk_iff s (tokensOf s) []).mp hx
        rcases hor with hb | hb
        · exact absurd rfl hb
        · exact absurd ⟨hall, hb⟩ h
  rw [hparse, hspec]
  constructor
  · intro h
    rcases not_and_or.mp h with hng | hng
    · push_neg at hng
      obtain ⟨t, ht, hne, hnok⟩ := hng
      have hnok2 : ¬(specRuleAmended t = true ∧ fnOutOfRangeB t = false) := by
        rw [← classify_exOk_iff]
        exact hnok
      rcases not_and_or.mp hnok2 with hr | ho
      · refine Or.inl ⟨t, ht, hne, ?_⟩
        cases hx : specRuleAmended t
        · rfl
        · exact absurd hx hr
      · refine Or.inr (Or.inl ⟨t, ht, ?_⟩)
        cases hx : fnOutOfRangeB t
        · exact absurd hx ho
        · rfl
    · push_neg at hng
      refine Or.inr (Or.inr ?_)
      intro t ht
      cases hx : t.isEmpty
      · exact absurd hx (hng t ht)
      · rfl
  · intro h
    rcases h with ⟨t, ht, hne, hr⟩ | ⟨t, ht, ho⟩ | hall
    · rintro ⟨ha, -⟩
      have := ha t ht hne
      rw [classify_exOk_iff] at this
      rw [hr] at this
      cases this.1
    · rintro ⟨ha, -⟩
      have := ha t ht (fnOutOfRangeB_ne_empty ho)
      rw [classify_exOk_iff] at this
      rw [ho] at this
      cases this.2
    · rintro ⟨-, t, ht, hne⟩
      rw [hall t ht] at hne
      cases hne

/-- C9 counterexample: the code accepts any single character, printable
or not — `_parse_hotkey` succeeds on the control character U+0001 even
though the claimed failure condition (no rule matched, since the token
is not a printable character) holds for it. -/
theorem claim_C9_counterexample :
    exOk (hotkeyParse "\x01") = true ∧
    specParseFails specRuleOrig "\x01" = true := by
  decide

/-- C9 amended: parse fails exactly when some non-empty token matches
no rule — modifier, function key f1..f20, or a single character
(printability not required) — or a function-key number is out of
range, or every token is empty; and the four concrete inputs fail with
the claimed error identities. -/
theorem claim_C9_amended :
    (∀ s : String, exOk (hotkeyParse s) = false ↔
      specParseFails specRuleAmended s = true) ∧
    hotkeyParse "" = .error (.emptyCombo "") ∧
    hotkeyParse "   " = .error (.emptyCombo "   ") ∧
    hotkeyParse "f25" = .error (.invalidFunctionKey "f25") ∧
    hotkeyParse "unknown" = .error (.unknownKey "unknown") :=
  ⟨hotkeyParse_fails_iff, rfl, rfl, rfl, rfl⟩

/-! ## Claim C8 -/

/-- Display names are never empty. -/
theorem keyName_ne_nil {k : PKey} : keyName k ≠ [] := by
  cases k with
  | ctrl => simp [keyName]
  | shift => simp [keyName]
  | alt => simp [keyName]
  | cmd => simp [keyName]
  | fkey n => simp [keyName]
  | char c =>
    simp only [keyName]
    unfold pyUpperChar
    split <;> simp

/-- Display names of invariant-satisfying keys avoid the separator. -/
theorem keyName_no_plus {k : PKey} (h : GoodKey k) :
    ∀ c ∈ keyName k, c ≠ '+' := by
  cases k with
  | ctrl => decide
  | shift => decide
  | alt => decide
  | cmd => decide
  | fkey n =>
    obtain ⟨h1, h2⟩ := h
    interval_cases n <;> decide
  | char c =>
    intro d hd
    simp only [keyName] at hd
    unfold pyUpperChar at hd
    by_cases hc : c = 'ß'
    · rw [if_pos hc] at hd
      intro he
      subst he
      exact absurd hd (by decide)
    · rw [if_neg hc, List.mem_singleton] at hd
      subst hd
      intro he
      apply h.1
      apply char_toNat_inj
      show c.toNat = ('+').toNat
      have h43 : c.toUpper.toNat = 43 := by rw [he]; decide
      rw [toUpper_toNat_43 c h43]
      decide

/-- Display names of invariant-satisfying keys avoid whitespace. -/
theorem keyName_no_space {k : PKey} (h : GoodKey k) :
    ∀ c ∈ keyName k, isPySpace c = false := by
  cases k with
  | ctrl => decide
  | shift => decide
  | alt => decide
  | cmd => decide
  | fkey n =>
    obtain ⟨h1, h2⟩ := h
    interval_cases n <;> decide
  | char c =>
    intro d hd
    simp only [keyName] at hd
    unfold pyUpperChar at hd
    by_cases hc : c = 'ß'
    · rw [if_pos hc] at hd
      rcases List.mem_cons.mp hd with rfl | hd
      · decide
      · rcases List.mem_cons.mp hd with rfl | hd
        · decide
        · cases hd
    · rw [if_neg hc, List.mem_singleton] at hd
      subst hd
      rw [isPySpace_toUpper]
      exact h.2.1

/-- Re-parsing the lower-cased display name of an invariant-satisfying
key that survives the case round trip recovers the key. -/
theorem classify_lower_keyName {k : PKey} (h : GoodKey k)
    (hrt : KeyRoundTrips k) :
    classifyToken ((keyName k).map Char.toLower) = .ok k := by
  cases k with
  | ctrl => rfl
  | shift => rfl
  | alt => rfl
  | cmd => rfl
  | fkey n =>
    obtain ⟨h1, h2⟩ := h
    interval_cases n <;> rfl
  | char c =>
    have hmap : (keyName (PKey.char c)).map Char.toLower = [c] := hrt
    rw [hmap]
    unfold classifyToken
    rw [if_neg (by simp), if_neg (by simp), if_neg (by simp), if_neg (by simp)]
    have hfn : ¬(fnShaped [c] = true) := by simp [fnShaped]
    rw [if_neg hfn]
    rfl

/-- The emitted key list has the same membership as the input set. -/
theorem mem_fmtKeys (l : List PKey) (k : PKey) : k ∈ fmtKeys l ↔ k ∈ l := by
  unfold fmtKeys
  rw [List.mem_append]
  constructor
  · rintro (h | h)
    · simpa using (List.mem_filter.mp h).2
    · exact (List.mem_filter.mp h).1
  · intro h
    cases hm : isModifier k
    · right
      exact List.mem_filter.mpr ⟨h, by simp [hm]⟩
    · left
      refine List.mem_filter.mpr ⟨?_, by simpa using h⟩
      cases k
      · simp
      · simp
      · simp
      · simp
      · simp [isModifier] at hm
      · simp [isModifier] at hm

/-- A non-empty key set emits at least one name. -/
theorem fmtKeys_ne_nil {l : List PKey} (h : l ≠ []) : fmtKeys l ≠ [] := by
  obtain ⟨k, hk⟩ := List.exists_mem_of_ne_nil l h
  have hmem := (mem_fmtKeys l k).mpr hk
  intro he
  rw [he] at hmem
  cases hmem

/-- Tokenizing the formatted hotkey yields exactly the lower-cased
display names, in emission order. -/
theorem tokensOf_format (l : List PKey) (hg : ∀ k ∈ l, GoodKey k)
    (hne : l ≠ []) :
    tokensOf (formatHotkey l) =
      (fmtKeys l).map (fun k => (keyName k).map Char.toLower) := by
  have hgood : ∀ k ∈ fmtKeys l, GoodKey k := fun k hk =>
    hg k ((mem_fmtKeys l k).mp hk)
  have hfne : fmtKeys l ≠ [] := fmtKeys_ne_nil hne
  have h0 : (formatHotkey l).data = joinPlus (fmtNames l) := rfl
  unfold tokensOf
  rw [h0, map_toLower_joinPlus]
  have hlowsgood : ∀ p ∈ (fmtNames l).map (List.map Char.toLower),
      (∀ c ∈ p, isPySpace c = false) ∧ (∀ c ∈ p, c ≠ '+') := by
    intro p hp
    obtain ⟨q, hq, rfl⟩ := List.mem_map.mp hp
    obtain ⟨k, hk, rfl⟩ := List.mem_map.mp hq
    constructor
    · intro c hc
      obtain ⟨x, hx, rfl⟩ := List.mem_map.mp hc
      rw [isPySpace_toLower]
      exact keyName_no_space (hgood k hk) x hx
    · intro c hc he
      obtain ⟨x, hx, rfl⟩ := List.mem_map.mp hc
      apply keyName_no_plus (hgood k hk) x hx
      apply char_toNat_inj
      show x.toNat = ('+').toNat
      have h43 : x.toLower.toNat = 43 := by rw [he]; decide
      rw [toLower_toNat_43 x h43]
      decide
  have hjoin_nospace : ∀ c ∈ joinPlus ((fmtNames l).map (List.map Char.toLower)),
      isPySpace c = false := by
    intro c hc
    rcases mem_joinPlus _ c hc with rfl | ⟨p, hp, hcp⟩
    · decide
    · exact (hlowsgood p hp).1 c hcp
  rw [pyStrip_eq_self hjoin_nospace]
  rw [splitPlus_joinPlus ((fmtNames l).map (List.map Char.toLower))
    (by
      intro he
      exact hfne (List.map_eq_nil.mp (List.map_eq_nil.mp (by
        unfold fmtNames at he
        exact he))))
    (fun p hp => (hlowsgood p hp).2)]
  have hstrip : ((fmtNames l).map (List.map Char.toLower)).map pyStrip =
      (fmtNames l).map (List.map Char.toLower) := by
    have heach : ∀ p ∈ (fmtNames l).map (List.map Char.toLower), pyStrip p = p :=
      fun p hp => pyStrip_eq_self (fun c hc => (hlowsgood p hp).1 c hc)
    calc ((fmtNames l).map (List.map Char.toLower)).map pyStrip
        = ((fmtNames l).map (List.map Char.toLower)).map id :=
          List.map_congr_left heach
      _ = (fmtNames l).map (List.map Char.toLower) := List.map_id _
  rw [hstrip]
  unfold fmtNames
  rw [List.map_map]
  rfl

/-- C8 counterexample: the parser accepts the single character sharp s,
but format upper-cases it to the two-letter name `SS`, which re-parses
(after lower-casing) as the two-character token `ss` and fails with
the unknown-key error — so the round trip does not hold for every
accepted string. -/
theorem claim_C8_counterexample :
    hotkeyParse "ß" = .ok [PKey.char 'ß'] ∧
    formatHotkey [PKey.char 'ß'] = "SS" ∧
    hotkeyParse (formatHotkey [PKey.char 'ß']) = .error (.unknownKey "ss") :=
  ⟨rfl, rfl, rfl⟩

/-- C8 amended: for every string the parser accepts whose parsed combo
contains only character keys that survive the case round trip (as all
ASCII characters do), formatting the combo — with the set iterated in
any order `lp` with the same membership — and re-parsing yields the
same key set. -/
theorem claim_C8_amended (s : String) (l lp : List PKey)
    (h : hotkeyParse s = .ok l)
    (hp : ∀ k, (k ∈ lp ↔ k ∈ l))
    (hrt : ∀ k ∈ l, KeyRoundTrips k) :
    ∃ l2, hotkeyParse (formatHotkey lp) = .ok l2 ∧ ∀ k, (k ∈ l2 ↔ k ∈ l) := by
  obtain ⟨hne, hmem⟩ := parseTokens_ok_mem s (tokensOf s) [] l h
  have hgoodl : ∀ k ∈ l, GoodKey k := by
    intro k hk
    rcases (hmem k).mp hk with hk0 | ⟨t, ht, -, hcl⟩
    · cases hk0
    · exact classify_good ht hcl
  have hgood : ∀ k ∈ lp, GoodKey k := fun k hk => hgoodl k ((hp k).mp hk)
  have hnep : lp ≠ [] := by
    obtain ⟨k, hk⟩ := List.exists_mem_of_ne_nil l hne
    intro he
    have := (hp k).mpr hk
    rw [he] at this
    cases this
  have hrtp : ∀ k ∈ lp, KeyRoundTrips k := fun k hk => hrt k ((hp k).mp hk)
  have htoks := tokensOf_format lp hgood hnep
  have htok_ne : ∀ t ∈ tokensOf (formatHotkey lp), t.isEmpty = false := by
    rw [htoks]
    intro t ht
    obtain ⟨k, hk, rfl⟩ := List.mem_map.mp ht
    rcases hx : (keyName k).map Char.toLower with _ | ⟨c, r⟩
    · exact absurd (List.map_eq_nil.mp hx) keyName_ne_nil
    · rfl
  have htok_ok : ∀ t ∈ tokensOf (formatHotkey lp), t.isEmpty = false →
      exOk (classifyToken t) = true := by
    rw [htoks]
    rintro t ht -
    obtain ⟨k, hk, rfl⟩ := List.mem_map.mp ht
    rw [classify_lower_keyName (hgood k ((mem_fmtKeys lp k).mp hk))
      (hrtp k ((mem_fmtKeys lp k).mp hk))]
    rfl
  have hok : exOk (hotkeyParse (formatHotkey lp)) = true := by
    unfold hotkeyParse
    rw [parseTokens_exOk_iff]
    refine ⟨htok_ok, Or.inr ?_⟩
    obtain ⟨k, hk⟩ := List.exists_mem_of_ne_nil lp hnep
    have hkf := (mem_fmtKeys lp k).mpr hk
    refine ⟨(keyName k).map Char.toLower, ?_, ?_⟩
    · rw [htoks]
      exact List.mem_map_of_mem _ hkf
    · exact htok_ne _ (by rw [htoks]; exact List.mem_map_of_mem _ hkf)
  rcases hpr : hotkeyParse (formatHotkey lp) with e | l2
  · rw [hpr] at hok
    simp [exOk] at hok
  · refine ⟨l2, rfl, ?_⟩
    intro k
    obtain ⟨-, hmem2⟩ := parseTokens_ok_mem (formatHotkey lp)
      (tokensOf (formatHotkey lp)) [] l2 hpr
    rw [hmem2 k]
    constructor
    · rintro (hk0 | ⟨t, ht, -, hcl⟩)
      · cases hk0
      · rw [htoks] at ht
        obtain ⟨k0, hk0, rfl⟩ := List.mem_map.mp ht
        have hcl0 := classify_lower_keyName (hgood k0 ((mem_fmtKeys lp k0).mp hk0))
          (hrtp k0 ((mem_fmtKeys lp k0).mp hk0))
        rw [hcl0] at hcl
        injection hcl with hcl
        rw [← hcl]
        exact (hp k0).mp ((mem_fmtKeys lp k0).mp hk0)
    · intro hk
      refine Or.inr ⟨(keyName k).map Char.toLower, ?_, ?_, ?_⟩
      · rw [htoks]
        exact List.mem_map_of_mem _ ((mem_fmtKeys lp k).mpr ((hp k).mpr hk))
      · exact htok_ne _ (by
          rw [htoks]
          exact List.mem_map_of_mem _ ((mem_fmtKeys lp k).mpr ((hp k).mpr hk)))
      · exact classify_lower_keyName (hgoodl k hk) (hrt k hk)

/-- Witness for the amended C8 on the concrete hotkey string
ctrl+shift+a, with the set iterated in a different order than
insertion. -/
theorem claim_C8_amended_witness :
    hotkeyParse "ctrl+shift+a" = .ok [PKey.ctrl, PKey.shift, PKey.char 'a'] ∧
    (∀ k : PKey, (k ∈ [PKey.shift, PKey.char 'a', PKey.ctrl] ↔
      k ∈ [PKey.ctrl, PKey.shift, PKey.char 'a'])) ∧
    (∀ k ∈ [PKey.ctrl, PKey.shift, PKey.char 'a'], KeyRoundTrips k) ∧
    (∃ l2, hotkeyParse (formatHotkey [PKey.shift, PKey.char 'a', PKey.ctrl]) =
        .ok l2 ∧
      ∀ k, (k ∈ l2 ↔ k ∈ [PKey.ctrl, PKey.shift, PKey.char 'a'])) :=
  ⟨rfl, fun k => by simp [List.mem_cons]; tauto,
   (by
     intro k hk
     rcases List.mem_cons.mp hk with rfl | hk
     · trivial
     rcases List.mem_cons.mp hk with rfl | hk
     · trivial
     rcases List.mem_cons.mp hk with rfl | hk
     · rfl
     · cases hk),
   claim_C8_amended "ctrl+shift+a" _ [PKey.shift, PKey.char 'a', PKey.ctrl] rfl
     (fun k => by simp [List.mem_cons]; tauto)
     (by
       intro k hk
       rcases List.mem_cons.mp hk with rfl | hk
       · trivial
       rcases List.mem_cons.mp hk with rfl | hk
       · trivial
       rcases List.mem_cons.mp hk with rfl | hk
       · rfl
       · cases hk)⟩

end VoiceCode
